import Mathlib

/-!
Verification of the teaching-pack generator core: the mastery-based grouping
engine, the structured-output negotiator with its schema-repair normalizer,
the full-workflow job orchestrator, and the job-status endpoint.

Each definition is a shallow embedding of the corresponding Python function;
external collaborators (the generative backend, the database, pydantic
validation) are modelled as explicit parameters or oracles, exactly at the
interface the Python code uses them through.
-/

set_option maxRecDepth 4000

namespace TPG

/-! ### String helpers mirroring Python primitives -/

/-- Python `str.lower()` restricted to per-character lowering (ASCII-faithful). -/
def pyLower (s : String) : String :=
  String.mk (s.data.map Char.toLower)

/-- `chStarts pat s` — `pat` is a prefix of `s` (character lists). -/
def chStarts : List Char → List Char → Bool
  | [], _ => true
  | _ :: _, [] => false
  | p :: ps, c :: cs => p = c && chStarts ps cs

/-- `chContains pat s` — `pat` occurs as a contiguous run inside `s`. -/
def chContains (pat : List Char) : List Char → Bool
  | [] => chStarts pat []
  | c :: cs => chStarts pat (c :: cs) || chContains pat cs

/-- Python `needle in haystack` substring test. -/
def pyInStr (needle haystack : String) : Bool :=
  chContains needle.data haystack.data

/-- Python truthiness of an `Optional[str]` value (`None` and `""` are falsy). -/
def pyStrOptTruthy : Option String → Bool
  | none => false
  | some s => !(s = "")

/-! ### Job-status endpoint (src/api/routes/jobs.py, get_job_status)

The database fetch and the two 404 guards (missing job, foreign owner) happen
before the logic below; we embed the handler body that runs on a successfully
fetched, authorized job record.  `ρ` is the part of `result_json` other than
its `errors` list. -/

/-- The part of a stored `result_json` dict the status endpoint looks at:
its `errors` list (a missing or null `errors` key is collapsed to `[]` by the
handler's `get("errors") or []`), plus the remaining payload `rest`. -/
structure JobResultJson (ρ : Type) where
  errors : List String
  rest : ρ
  deriving DecidableEq

/-- A persisted `WorkflowJob` row, as read by the status endpoint.
`updatedAt` is a timestamp in seconds. -/
structure WorkflowJobRec (ρ : Type) where
  id : String
  status : Option String
  progress : Option ℚ
  message : Option String
  resultJson : Option (JobResultJson ρ)
  updatedAt : Option ℤ
  deriving DecidableEq

/-- The JSON body returned by `GET /api/jobs/{job_id}`. -/
structure JobStatusResp (ρ : Type) where
  jobId : String
  status : String
  progress : ℚ
  hasErrors : Bool
  errorCount : ℕ
  message : Option String
  result : Option (JobResultJson ρ)
  error : Option String
  deriving DecidableEq

/-- The stale-job advisory message from jobs.py line 66. -/
def staleJobMessage : String :=
  "Job appears stale (worker may have restarted). Please retry."

/-- The staleness window: `timedelta(minutes=30)` in seconds. -/
def staleWindowSeconds : ℤ := 1800

/-- The `status_map` lookup plus the membership guard of jobs.py lines 51-57. -/
def normalizeJobStatus (raw : String) : String :=
  let mapped :=
    if raw = "pending" then "queued"
    else if raw = "completed_with_errors" then "completed"
    else raw
  if mapped = "queued" ∨ mapped = "processing" ∨
      mapped = "completed" ∨ mapped = "failed" then mapped
  else "queued"

/-- The staleness test of jobs.py lines 60-64 (only a `processing` job with a
recorded last update can be stale). -/
def staleCheck (normalized : String) (updatedAt : Option ℤ) (now : ℤ) : Bool :=
  if normalized = "processing" then
    match updatedAt with
    | none => false
    | some t => decide (now - t > staleWindowSeconds)
  else false

/-- Embeds `get_job_status` (jobs.py lines 50-87).  `now` is the read time in
seconds.  The handler performs no write: we return the record next to the
response to state the frame property. -/
def getJobStatus {ρ : Type} (job : WorkflowJobRec ρ) (now : ℤ) :
    WorkflowJobRec ρ × JobStatusResp ρ :=
  let normalized1 := normalizeJobStatus (pyLower (job.status.getD "queued"))
  let staleHit : Bool := staleCheck normalized1 job.updatedAt now
  let normalized2 := if staleHit then "failed" else normalized1
  let staleMsg : Option String := if staleHit then some staleJobMessage else none
  let errors :=
    match job.resultJson with
    | some rj => rj.errors
    | none => []
  let hasErrors := errors ≠ []
  let errorCount := if hasErrors then errors.length else 0
  let message :=
    match staleMsg with
    | none => job.message
    | some sm =>
        if pyStrOptTruthy job.message then
          some ((job.message.getD "") ++ " " ++ sm)
        else some sm
  ⟨job,
    { jobId := job.id
      status := normalized2
      progress := job.progress.getD 0
      hasErrors := hasErrors
      errorCount := errorCount
      message := message
      result := if normalized2 = "completed" then job.resultJson else none
      error := if normalized2 = "failed" then message else none }⟩

/-! ### Grouping engine

`profile_groups_by_quartile` (src/utils/basetools/grouping_utils.py) and the
score-based AI grouping (src/utils/basetools/heterogeneous_grouping.py).
Mastery values and scores are embedded as rationals; `statistics.mean` raises
`StatisticsError` on empty data, embedded as `Except.error`. -/

/-- `mapME f` is the Python pattern of building a list in a loop where each
step may raise: the first raise propagates. -/
def mapME {α β ε : Type} (f : α → Except ε β) : List α → Except ε (List β)
  | [] => .ok []
  | a :: as =>
    match f a with
    | .error e => .error e
    | .ok b =>
      match mapME f as with
      | .error e => .error e
      | .ok bs => .ok (b :: bs)

/-- `statistics.mean` on rationals. -/
def pyMean (l : List ℚ) : Except String ℚ :=
  if l.isEmpty then .error "mean requires at least one data point"
  else .ok (l.sum / l.length)

/-- Python `d.get(k, default)` on a string-keyed mapping (insertion-ordered,
first matching key wins; parsed dicts have unique keys). -/
def alGetD (k : String) (l : List (String × ℚ)) (d : ℚ) : ℚ :=
  match l.find? (fun p => p.1 = k) with
  | some p => p.2
  | none => d

/-- A skill as read by the quartile profiler (only `skill_id` is consulted). -/
structure Skill where
  skillId : String
  deriving DecidableEq

/-- The `SkillSet` fields used by the grouping engine. -/
structure SkillSetM where
  skills : List Skill
  deriving DecidableEq

/-- A `StudentDiagnosticResult` (src/models/teaching_pack_models.py) as read
by the profiler: `skillMastery` is the per-skill mastery dict. -/
structure StudentDiagnosticResult where
  studentId : String
  studentName : String
  skillMastery : List (String × ℚ)
  misconceptions : List String
  deriving DecidableEq

/-- One entry of the intermediate `students_mastery` list. -/
structure MasteryRow where
  studentId : String
  studentName : String
  overall : ℚ
  skillMastery : List (String × ℚ)
  misconceptions : List String
  score : Option ℚ
  deriving DecidableEq

/-- A produced `GroupProfile`. -/
structure GroupProfile where
  groupId : String
  groupName : String
  description : String
  masteryLevel : String
  skillMastery : List (String × ℚ)
  commonMisconceptions : List String
  learningPace : String
  students : List String
  recommendedActivities : List String
  deriving DecidableEq

/-- A `GroupingResult`. -/
structure GroupingResult where
  groups : List GroupProfile
  rationale : String
  totalStudents : ℕ
  deriving DecidableEq

/-- Stable insertion into an ascending list: `x` is placed before the first
element not strictly below it, so equal keys keep their original order. -/
def insertAsc {α : Type} (lt : α → α → Bool) (x : α) : List α → List α
  | [] => [x]
  | y :: ys => if lt y x then y :: insertAsc lt x ys else x :: y :: ys

/-- Python `list.sort` is a stable ascending sort; any stable ascending sort
computes the same list, and we embed it as stable insertion sort. -/
def sortStable {α : Type} (lt : α → α → Bool) : List α → List α
  | [] => []
  | x :: xs => insertAsc lt x (sortStable lt xs)

/-- Lines 31-41 of grouping_utils.py: per-student overall mastery (mean of the
mastery dict's values — raises on an empty dict). -/
def buildMasteryRows (studentScores : Option (List (String × ℚ)))
    (results : List StudentDiagnosticResult) : Except String (List MasteryRow) :=
  mapME
    (fun r =>
      match pyMean (r.skillMastery.map Prod.snd) with
      | .error e => .error e
      | .ok overall =>
        .ok { studentId := r.studentId
              studentName := r.studentName
              overall := overall
              skillMastery := r.skillMastery
              misconceptions := r.misconceptions
              score :=
                match studentScores with
                | some scores =>
                  match scores.find? (fun p => p.1 = r.studentName) with
                  | some p => some p.2
                  | none => none
                | none => none })
    results

/-- Lines 66-79 of grouping_utils.py: mastery-level thresholds. -/
def masteryLevelOf (overallAvg : ℚ) : String × String :=
  if overallAvg < 2/5 then ("low", "slow")
  else if overallAvg < 3/5 then ("medium", "moderate")
  else if overallAvg < 4/5 then ("high", "moderate")
  else ("advanced", "fast")

/-- Helper for `dedupFirst`: drop elements already seen. -/
def dedupFirstGo : List String → List String → List String
  | [], _ => []
  | x :: xs, seen =>
    if seen.contains x then dedupFirstGo xs seen
    else x :: dedupFirstGo xs (seen ++ [x])

/-- First-occurrence deduplication.  CPython's `list(set(xs))` iterates the
set in an unspecified hash order; the claims never depend on this order and we
fix the first-occurrence order. -/
def dedupFirst (l : List String) : List String :=
  dedupFirstGo l []

/-- One iteration of the group loop (grouping_utils.py lines 50-92): slice the
sorted roster, average each skill, classify, and build the `GroupProfile`. -/
def mkQuartileGroup (skillSet : SkillSetM) (sorted : List MasteryRow)
    (numGroups groupSize : ℕ) (i : ℕ) : Except String GroupProfile :=
  let first := i * groupSize
  let last := if i < numGroups - 1 then first + groupSize else sorted.length
  let groupStudents := (sorted.drop first).take (last - first)
  match
    mapME
      (fun sk =>
        match pyMean (groupStudents.map (fun s => alGetD sk.skillId s.skillMastery 0)) with
        | .error e => .error e
        | .ok v => .ok (sk.skillId, v))
      skillSet.skills with
  | .error e => .error e
  | .ok avgMastery =>
    match pyMean (avgMastery.map Prod.snd) with
    | .error e => .error e
    | .ok overallAvg =>
      let lv := masteryLevelOf overallAvg
      .ok { groupId := "group_" ++ toString (i + 1)
            groupName := "Group " ++ toString (i + 1)
            description := ""
            masteryLevel := lv.1
            skillMastery := avgMastery
            commonMisconceptions :=
              (dedupFirst (groupStudents.flatMap (·.misconceptions))).take 5
            learningPace := lv.2
            students := groupStudents.map (·.studentId)
            recommendedActivities := [] }

/-- Embeds `profile_groups_by_quartile` (grouping_utils.py lines 12-98).
`num_groups = 0` raises `ZeroDivisionError` at `len(...) // num_groups`. -/
def profileGroupsByQuartile (skillSet : SkillSetM)
    (results : List StudentDiagnosticResult) (numGroups : ℕ)
    (studentScores : Option (List (String × ℚ)) := none) :
    Except String GroupingResult :=
  match buildMasteryRows studentScores results with
  | .error e => .error e
  | .ok rows =>
    let sorted := sortStable (fun a b => decide (a.overall < b.overall)) rows
    if numGroups = 0 then .error "integer division or modulo by zero"
    else
      let groupSize := sorted.length / numGroups
      match
        mapME (mkQuartileGroup skillSet sorted numGroups groupSize)
          (List.range numGroups) with
      | .error e => .error e
      | .ok groups =>
        .ok { groups := groups
              rationale := "Students grouped into " ++ toString numGroups ++
                " levels based on diagnostic mastery scores using quartile method"
              totalStudents := sorted.length }

/-! #### Score-based AI grouping (heterogeneous_grouping.py)

`ai_grouping_by_subject` sends the roster to the generative backend and then
post-processes the parsed JSON object.  We embed the post-processing (lines
186-274) over the parsed response; the prompt construction, the network call,
the JSON parse and any exception they raise are collapsed into the
`Except`-valued response argument (the `except` handler at line 276 catches
them all and falls back to the even distribution).  Group keys of a parsed
JSON object are distinct; only the membership-carrying `students` field
affects the partition, so the descriptive per-group fields are not tracked. -/

/-- One proposed group of the parsed backend response. -/
structure AiGroupIn where
  gid : String
  students : List String
  deriving DecidableEq

/-- Lines 190-256: keep, per proposed group, the ids that exist in the roster
and were not already used by an earlier group; a group is materialized only if
that list is nonempty.  The `used` set is updated only after the whole list
comprehension, so a duplicate inside one group survives. -/
def aiCollectGroups (rosterIds : List String) :
    List AiGroupIn → List String → List (String × List String)
  | [], _ => []
  | g :: rest, used =>
    let valid := g.students.filter
      (fun sid => rosterIds.contains sid && !(used.contains sid))
    let used2 := used ++ valid
    if valid.isEmpty then aiCollectGroups rosterIds rest used2
    else (g.gid, valid) :: aiCollectGroups rosterIds rest used2

/-- Append `sid` to the members of the group at position `j`. -/
def appendAtIdx : List (String × List String) → ℕ → String →
    List (String × List String)
  | [], _, _ => []
  | e :: rest, 0, sid => (e.1, e.2 ++ [sid]) :: rest
  | e :: rest, j + 1, sid => e :: appendAtIdx rest j sid

/-- Lines 266-271: distribute the remaining students round-robin over the
existing groups (`i % len(group_keys)`). -/
def roundRobinGo (gs : List (String × List String)) :
    List String → ℕ → List (String × List String)
  | [], _ => gs
  | sid :: rest, i => roundRobinGo (appendAtIdx gs (i % gs.length) sid) rest (i + 1)

/-- Lines 186-274 of `ai_grouping_by_subject` after a successfully parsed
response: collect groups, then assign the unassigned remainder round-robin —
but only when at least one group was materialized. -/
def aiGroupingFinal (rosterIds : List String) (ai : List AiGroupIn) :
    List (String × List String) :=
  let groups := aiCollectGroups rosterIds ai []
  let allAssigned := (groups.map Prod.snd).flatten
  let remaining := rosterIds.filter (fun sid => !(allAssigned.contains sid))
  if remaining.isEmpty ∨ groups.isEmpty then groups
  else roundRobinGo groups remaining 0

/-- `distribute_evenly` / `distribute_evenly_as_dict` (lines 282-305), on
student ids: `i % num_groups` raises `ZeroDivisionError` when `num_groups = 0`
and the roster is nonempty. -/
def distributeEvenlyIds (rosterIds : List String) (numGroups : ℕ) :
    Except String (List (String × List String)) :=
  if numGroups = 0 ∧ ¬ rosterIds.isEmpty then
    .error "integer division or modulo by zero"
  else
    .ok (roundRobinGo
      ((List.range numGroups).map (fun i => ("group_" ++ toString (i + 1), [])))
      rosterIds 0)

/-- `ai_grouping_by_subject` end to end: on any exception up to and including
the JSON parse, fall back to the even distribution (line 279). -/
def aiGroupingBySubject (rosterIds : List String)
    (resp : Except String (List AiGroupIn)) (numGroups : ℕ) :
    Except String (List (String × List String)) :=
  match resp with
  | .ok ai => .ok (aiGroupingFinal rosterIds ai)
  | .error _ => distributeEvenlyIds rosterIds numGroups


/-! ### Structured-output negotiator
(experiments/mas_evaluation_experiment_vllm.py)

`_run_agent_json` drives a generative backend call with token-budget
negotiation.  The backend (`agent.run`) is an external collaborator: an
oracle mapping the call index and current prompt to either a raised
exception's message or the raw output text (the `result.data` /
`result.output` / `str()` chain collapsed to the final string; empty output
is the empty string).  Strict parsing plus repair
(`_parse_model_from_text`) is pydantic-dependent for each target type, so the
loop is parameterized by the parse function; the loop inspects it only
through success or the failure message, exactly as the Python code does. -/

/-- The opening brace character (written numerically). -/
def braceOpen : Char := Char.ofNat 123

/-- The closing brace character (written numerically). -/
def braceClose : Char := Char.ofNat 125

/-- Find the first opening brace and return the suffix starting there
(`text.find("{")` of `_extract_json_block`). -/
def dropToBrace : List Char → Option (List Char)
  | [] => none
  | c :: rest => if c = braceOpen then some (c :: rest) else dropToBrace rest

/-- The bracket-depth scan of `_extract_json_block` (lines 179-188). -/
def scanBalanced : List Char → ℕ → List Char → Except String String
  | [], _, _ => .error "Unclosed JSON object in model output."
  | c :: rest, depth, acc =>
    if c = braceOpen then scanBalanced rest (depth + 1) (acc ++ [c])
    else if c = braceClose then
      if depth = 1 then .ok (String.mk (acc ++ [c]))
      else scanBalanced rest (depth - 1) (acc ++ [c])
    else scanBalanced rest depth (acc ++ [c])

/-- Embeds `_extract_json_block` (lines 175-188): locate the first balanced
top-level object by bracket-depth scanning. -/
def extractJsonBlock (text : String) : Except String String :=
  match dropToBrace text.data with
  | none => .error "No JSON object found in model output."
  | some suffix => scanBalanced suffix 0 []

/-- Decimal value of a digit run. -/
def parseDigits (ds : List Char) : ℕ :=
  ds.foldl (fun n c => n * 10 + (c.toNat - 48)) 0

/-- `re.search` for a literal followed by `(\d+)` and (optionally) a further
literal: the first position where the literal matches, a nonempty maximal
digit run follows, and the trailing literal (when given) follows the run.
Since each digit group in the source patterns is followed by a non-digit,
only the maximal run can match, so this is exactly the regex semantics. -/
def scanLitDigits (lit : List Char) (post : Option (List Char)) :
    List Char → Option ℕ
  | [] => none
  | c :: cs =>
    (if chStarts lit (c :: cs) then
      let after := (c :: cs).drop lit.length
      let ds := after.takeWhile Char.isDigit
      if ds.isEmpty then none
      else
        match post with
        | none => some (parseDigits ds)
        | some p =>
          if chStarts p (after.drop ds.length) then some (parseDigits ds)
          else none
    else none).orElse (fun _ => scanLitDigits lit post cs)

/-- `re.search` for the alternate pattern `\((\d+) > (\d+) - (\d+)\)`,
returning the second and third groups. -/
def scanAltPat : List Char → Option (ℕ × ℕ)
  | [] => none
  | c :: cs =>
    (if c = '(' then
      let d1 := cs.takeWhile Char.isDigit
      if d1.isEmpty then none
      else
        let r1 := cs.drop d1.length
        if chStarts " > ".data r1 then
          let a2 := r1.drop 3
          let d2 := a2.takeWhile Char.isDigit
          if d2.isEmpty then none
          else
            let r2 := a2.drop d2.length
            if chStarts " - ".data r2 then
              let a3 := r2.drop 3
              let d3 := a3.takeWhile Char.isDigit
              if d3.isEmpty then none
              else
                let r3 := a3.drop d3.length
                if chStarts [')'] r3 then some (parseDigits d2, parseDigits d3)
                else none
            else none
        else none
    else none).orElse (fun _ => scanAltPat cs)

/-- Embeds `_extract_max_tokens_limit` (lines 191-213) over the error message
string (the `body["message"]` / `str(err)` extraction collapsed to the final
message). -/
def extractMaxTokensLimit (message : String) : Option ℕ :=
  match scanLitDigits "maximum context length is ".data none message.data,
      scanLitDigits "request has ".data (some " input tokens".data)
        message.data with
  | some maxLen, some inputToks => some (max 16 (maxLen - inputToks))
  | _, _ =>
    match scanAltPat message.data with
    | some p => some (max 16 (p.1 - p.2))
    | none => none

/-- A backend response. -/
inductive BackendResp where
  | raise (msg : String)
  | reply (text : String)

/-- The negotiator's loop state (`_run_agent_json` locals), instrumented with
the per-kind adjustment counts and the budget passed to each backend call. -/
structure NegotState where
  callIdx : ℕ
  prompt : String
  maxTokens : ℕ
  parseAttempts : ℕ
  adjusts : ℕ
  ctxAdjusts : ℕ
  truncAdjusts : ℕ
  maxAllowed : Option ℕ
  lastErr : Option String
  budgets : List ℕ
  deriving DecidableEq

/-- The stricter re-prompt suffix appended on a consumed retry
(lines 481-485). -/
def stricterSuffix : String :=
  "\n\nReturn ONLY a valid JSON object that strictly matches the required schema. Do not include any extra text."

/-- Result of one `while` iteration. -/
inductive NegotStep (α : Type) where
  | next (s : NegotState)
  | done (v : α) (s : NegotState)
  | raised (msg : String) (s : NegotState)
  | exhausted (lastErr : Option String) (s : NegotState)

/-- One iteration of `_run_agent_json`'s `while` loop (lines 449-485),
including the loop guard `parse_attempts <= retries`. -/
def negotStep {α : Type} (oracle : ℕ → String → BackendResp)
    (parseFn : String → Except String α) (retries : ℕ) (s : NegotState) :
    NegotStep α :=
  if s.parseAttempts > retries then .exhausted s.lastErr s
  else
    let s0 := { s with budgets := s.budgets ++ [s.maxTokens],
                       callIdx := s.callIdx + 1 }
    match oracle s.callIdx s.prompt with
    | .raise msg =>
      match extractMaxTokensLimit msg with
      | some allowed =>
        if s.adjusts < 10 then
          .next { s0 with maxAllowed := some allowed,
                          maxTokens := max 16 (allowed - 64),
                          lastErr := some msg,
                          adjusts := s.adjusts + 1,
                          ctxAdjusts := s.ctxAdjusts + 1 }
        else .raised msg s0
      | none => .raised msg s0
    | .reply text =>
      match parseFn text with
      | .ok v => .done v s0
      | .error e =>
        if pyInStr "Unclosed JSON object" e = true ∧ s.adjusts < 10 then
          .next { s0 with
            maxTokens :=
              match s.maxAllowed with
              | none => s.maxTokens + 64
              | some ma =>
                if s.maxTokens < ma - 8 then min (ma - 8) (s.maxTokens + 64)
                else s.maxTokens,
            lastErr := some e,
            adjusts := s.adjusts + 1,
            truncAdjusts := s.truncAdjusts + 1 }
        else
          .next { s0 with parseAttempts := s.parseAttempts + 1,
                          prompt := s.prompt ++ stricterSuffix,
                          lastErr := some e }

/-- Final outcome of the negotiator: a typed record, a re-raised backend
exception, the exhaustion `ValueError`, or fuel exhaustion (proved
unreachable below). -/
inductive NegotOutcome (α : Type) where
  | ok (v : α)
  | raisedBackend (msg : String)
  | exhausted (lastErr : Option String)
  | fuelOut

/-- Outcome plus final instrumented state. -/
structure NegotResult (α : Type) where
  outcome : NegotOutcome α
  final : NegotState

/-- The `while` loop, driven by fuel (termination is a theorem: with the fuel
used by `runAgentJson`, `fuelOut` is unreachable). -/
def negotLoop {α : Type} (oracle : ℕ → String → BackendResp)
    (parseFn : String → Except String α) (retries : ℕ) :
    ℕ → NegotState → NegotResult α
  | 0, s => ⟨.fuelOut, s⟩
  | fuel + 1, s =>
    match negotStep oracle parseFn retries s with
    | .next s2 => negotLoop oracle parseFn retries fuel s2
    | .done v s2 => ⟨.ok v, s2⟩
    | .raised m s2 => ⟨.raisedBackend m, s2⟩
    | .exhausted le s2 => ⟨.exhausted le, s2⟩

/-- The initial state of `_run_agent_json`: budget 512, no attempts, no
adjustments. -/
def initialNegotState (prompt : String) : NegotState :=
  { callIdx := 0, prompt := prompt, maxTokens := 512, parseAttempts := 0,
    adjusts := 0, ctxAdjusts := 0, truncAdjusts := 0, maxAllowed := none,
    lastErr := none, budgets := [] }

/-- Embeds `_run_agent_json(agent, prompt, model_cls, retries)`. -/
def runAgentJson {α : Type} (oracle : ℕ → String → BackendResp)
    (parseFn : String → Except String α) (prompt : String) (retries : ℕ) :
    NegotResult α :=
  negotLoop oracle parseFn retries (11 * (retries + 2)) (initialNegotState prompt)

/-- The concrete strict-parse front end used by witnesses: accept any text
whose first balanced object exists, mirroring `_extract_json_block`'s
failures (in particular the truncation signal). -/
def parseBlockOnly (text : String) : Except String String :=
  extractJsonBlock text


/-! ### Full-workflow job orchestrator
(src/api/routes/teaching_packs.py, process_full_workflow)

Every generative stage and every database/storage call is an external
collaborator; the oracle below records each one's outcome (`Except.error` is
a raised exception, carrying `str(e)`).  Artifact contents are opaque type
parameters: the orchestrator moves them around without inspecting them.
Per-group stages are indexed by the group's position in the labeled-groups
list.  Job persistence (`upsert_workflow_job`) is modelled as a reliable
state write. -/

/-- Outcomes of the external collaborators used by one run of
`process_full_workflow`.  `groupsStage` bundles stages 4-6 (existing-groups
path or mock results + quartile profiling + per-group labeling): any
exception there is caught by the same fatal handler (lines 468-471). -/
structure WfOracle (L S D G P Q V : Type) where
  lessonParse : Except String L
  createLesson : Except String ℕ
  theoryQ : Except String Unit
  skillMap : Except String S
  diagBuild : Except String D
  groupsStage : Except String (List G)
  nameOf : G → String
  planFor : ℕ → Except String P
  quizFor : ℕ → Except String Q
  videoFor : ℕ → Except String V
  exportResults : Except String String
  savePack : Except String ℕ

/-- The `quiz` entry of a pack: the model output, or the literal fallback
`\x7b"questions": [], "practice_exercises": [], "answer_key": []\x7d`
(line 509). -/
inductive QuizVal (Q : Type) where
  | fromModel (q : Q)
  | fallbackEmpty
  deriving DecidableEq

/-- The `video` entry of a pack: the drafted (and defaulted) video dict, or
the literal placeholder `\x7b"title": "Video unavailable", ...\x7d`
(lines 571-577). -/
inductive VideoVal (V : Type) where
  | drafted (v : V)
  | placeholder
  deriving DecidableEq

/-- One `pack_data` dict (lines 478-599).  `none` models an absent or null
entry; `slides` holds the plan whose `slide_outline` the slides structure is
built from (lines 515-522; the code's `except` fallback builds the identical
structure and its `try` body cannot raise). -/
structure PackData (G P Q V : Type) where
  group : G
  packPlan : Option P := none
  quiz : Option (QuizVal Q) := none
  slides : Option P := none
  video : Option (VideoVal V) := none
  videoUrl : Option String := none
  videoThumbnail : Option String := none
  errors : List String := []
  status : String := ""
  teachingPackId : Option ℕ := none
  deriving DecidableEq

/-- The accumulating `results` dict plus the local variables the final
payload reads. -/
structure WfResults (L S D G P Q V : Type) where
  lessonSummary : Option L := none
  skillSet : Option S := none
  diagnostic : Option D := none
  groups : List G := []
  teachingPacks : List (PackData G P Q V) := []
  errors : List String := []
  outputFile : Option String := none
  savedToDb : Bool := false
  teachingPackId : Option ℕ := none
  lessonId : Option ℕ := none

/-- Stage 7 for one group (lines 477-599): a pack-planner failure is caught
by the outer per-group handler and recorded at both pack and job level; quiz
and video failures are caught by their inner handlers, recorded only in the
pack's own error list, and replaced by fallbacks.  Returns the pack and its
contribution to the job-level error list. -/
def processGroup {L S D G P Q V : Type} (o : WfOracle L S D G P Q V)
    (i : ℕ) (g : G) : PackData G P Q V × List String :=
  match o.planFor i with
  | .error e =>
    ({ group := g,
       errors := ["Pack generation failed: " ++ e],
       status := "failed", teachingPackId := none },
     ["Pack for " ++ o.nameOf g ++ " failed: " ++ e])
  | .ok p =>
    let quizPair : Option (QuizVal Q) × List String :=
      match o.quizFor i with
      | .ok q => (some (QuizVal.fromModel q), [])
      | .error e => (some QuizVal.fallbackEmpty,
          ["Quiz generation failed: " ++ e])
    let videoPair : Option (VideoVal V) × List String :=
      match o.videoFor i with
      | .ok v => (some (VideoVal.drafted v), [])
      | .error e => (some VideoVal.placeholder,
          ["Video drafting failed: " ++ e])
    ({ group := g,
       packPlan := some p,
       quiz := quizPair.1,
       slides := some p,
       video := videoPair.1,
       videoUrl := none,
       videoThumbnail := none,
       errors := quizPair.2 ++ videoPair.2,
       status := "preview",
       teachingPackId := none },
     [])

/-- The per-group loop of stage 7, threading the group index. -/
def processGroups {L S D G P Q V : Type} (o : WfOracle L S D G P Q V) :
    ℕ → List G → List (PackData G P Q V) × List String
  | _, [] => ([], [])
  | i, g :: rest =>
    let pe := processGroup o i g
    let rest2 := processGroups o (i + 1) rest
    (pe.1 :: rest2.1, pe.2 ++ rest2.2)

/-- The `try` body of `process_full_workflow` (lines 308-696 up to the final
status write): a raised exception carries `str(e)` and the `results`
accumulated so far. -/
def wfBody {L S D G P Q V : Type} (o : WfOracle L S D G P Q V) :
    Except (String × WfResults L S D G P Q V) (WfResults L S D G P Q V) :=
  let r0 : WfResults L S D G P Q V := {}
  match o.lessonParse with
  | .error e => .error (e,
      { r0 with errors := ["Lesson parsing failed: " ++ e] })
  | .ok ls =>
    let r1 := { r0 with lessonSummary := some ls }
    match o.createLesson with
    | .error e => .error (e,
        { r1 with errors := r1.errors ++ ["Lesson parsing failed: " ++ e] })
    | .ok lid =>
      let r2 := { r1 with lessonId := some lid }
      let r3 :=
        match o.theoryQ with
        | .ok _ => r2
        | .error e => { r2 with errors :=
            r2.errors ++ ["Theory question generation failed: " ++ e] }
      match o.skillMap with
      | .error e => .error (e,
          { r3 with errors := r3.errors ++ ["Skill mapping failed: " ++ e] })
      | .ok ss =>
        let r4 := { r3 with skillSet := some ss }
        match o.diagBuild with
        | .error e => .error (e, { r4 with errors :=
            r4.errors ++ ["Diagnostic building failed: " ++ e] })
        | .ok d =>
          let r5 := { r4 with diagnostic := some d }
          match o.groupsStage with
          | .error e => .error (e, { r5 with errors :=
              r5.errors ++ ["Group processing failed: " ++ e] })
          | .ok gs =>
            let r6 := { r5 with groups := gs }
            let pe := processGroups o 0 gs
            let r7 := { r6 with teachingPacks := pe.1,
                                errors := r6.errors ++ pe.2 }
            let r8 :=
              match o.exportResults with
              | .ok f => { r7 with outputFile := some f }
              | .error e => { r7 with errors :=
                  r7.errors ++ ["Output file export failed: " ++ e] }
            let r9 :=
              match o.savePack with
              | .ok tpid =>
                { r8 with savedToDb := true, teachingPackId := some tpid,
                          teachingPacks := r8.teachingPacks.map
                            (fun p => { p with teachingPackId := some tpid }) }
              | .error e => { r8 with errors :=
                  r8.errors ++ ["Database save failed: " ++ e] }
            .ok r9

/-- The persisted result payload (`final_result_dict` / `failed_result_dict`,
lines 670-680 and 700-707). -/
structure WfPayload (L S D G P Q V : Type) where
  lessonSummary : Option L
  skillSet : Option S
  diagnostic : Option D
  groups : List G
  teachingPacks : List (PackData G P Q V)
  errors : List String

/-- The job record as written by the final `upsert_workflow_job`. -/
structure WfJobRecord (L S D G P Q V : Type) where
  status : String
  progress : ℚ
  message : String
  result : WfPayload L S D G P Q V

/-- Embeds `process_full_workflow` end to end: the body, then either the
final `status="completed"` write (message chosen by whether the error list
is empty, lines 664-691) or the `status="failed"` write of the outer handler
(lines 698-718, appending `str(e)` to the accumulated error list). -/
def processFullWorkflow {L S D G P Q V : Type}
    (o : WfOracle L S D G P Q V) : WfJobRecord L S D G P Q V :=
  match wfBody o with
  | .ok r =>
    let message :=
      if r.errors.isEmpty then
        "Successfully generated " ++ toString r.teachingPacks.length ++
          " teaching packs"
      else
        "Generated " ++ toString r.teachingPacks.length ++
          " teaching packs with " ++ toString r.errors.length ++ " errors"
    { status := "completed", progress := 1, message := message,
      result := { lessonSummary := r.lessonSummary, skillSet := r.skillSet,
                  diagnostic := r.diagnostic, groups := r.groups,
                  teachingPacks := r.teachingPacks, errors := r.errors } }
  | .error (e, r) =>
    { status := "failed", progress := 1, message := e,
      result := { lessonSummary := r.lessonSummary, skillSet := r.skillSet,
                  diagnostic := r.diagnostic, groups := r.groups,
                  teachingPacks := r.teachingPacks,
                  errors := r.errors ++ [e] } }


/-- A fully succeeding oracle over opaque unit artifacts, used to
instantiate concrete runs. -/
def unitOracleBase : WfOracle Unit Unit Unit Unit Unit Unit Unit :=
  { lessonParse := .ok (), createLesson := .ok 1, theoryQ := .ok (),
    skillMap := .ok (), diagBuild := .ok (), groupsStage := .ok [()],
    nameOf := fun _ => "Group", planFor := fun _ => .ok (),
    quizFor := fun _ => .ok (), videoFor := fun _ => .ok (),
    exportResults := .ok "out.json", savePack := .ok 7 }


/-! ### Schema repair normalizer
(`_parse_model_from_text`, experiments/mas_evaluation_experiment_vllm.py
lines 216-440)

The strict parse (`model_validate_json`) is pydantic; the repair branch works
on the value returned by `json.loads`, embedded as `Jv`.  Python dicts are
insertion-ordered with unique keys (as produced by `json.loads`); we embed
them as association lists whose operations read and write the first
occurrence of a key, and `pop` removes the key.  Python `str()` / `repr` /
`json.dumps` of floats and containers are rendered by a fixed deterministic
scheme; no claim depends on the exact rendering.  The only operation in the
repair rules that can itself raise is `len()` on a non-sized value, embedded
in `Except`. -/

/-- A loaded JSON value (Python scalars, lists and dicts).  `b` is kept
separate from `i` but Python treats `bool` as an `int` subclass, which the
`isinstance` embeddings below respect. -/
inductive Jv where
  | null
  | b (v : Bool)
  | i (v : ℤ)
  | f (v : ℚ)
  | s (v : String)
  | arr (items : List Jv)
  | obj (fields : List (String × Jv))

/-- Python truthiness. -/
def truthy : Jv → Bool
  | .null => false
  | .b v => v
  | .i v => !(v = 0)
  | .f v => !(v = 0)
  | .s v => !(v = "")
  | .arr l => !l.isEmpty
  | .obj l => !l.isEmpty

/-- Python `a or b`. -/
def pyOr (a b : Jv) : Jv := if truthy a then a else b

/-- First binding of `k`. -/
def objGet : List (String × Jv) → String → Option Jv
  | [], _ => none
  | (k2, v) :: rest, k => if k2 = k then some v else objGet rest k

/-- Python `k in d`. -/
def objHasKey (o : List (String × Jv)) (k : String) : Bool :=
  (objGet o k).isSome

/-- Python `d[k] = v`: overwrite the binding, or append a new one. -/
def objSet : List (String × Jv) → String → Jv → List (String × Jv)
  | [], k, v => [(k, v)]
  | (k2, v2) :: rest, k, v =>
    if k2 = k then (k2, v) :: rest else (k2, v2) :: objSet rest k v

/-- Python `d.setdefault(k, v)` — and the ubiquitous
`if k not in d: d[k] = v` pattern, which is the same operation. -/
def objSetD (o : List (String × Jv)) (k : String) (v : Jv) :
    List (String × Jv) :=
  if objHasKey o k then o else objSet o k v

/-- Python `d.pop(k)`'s effect on the dict: the key is removed. -/
def objRemove : List (String × Jv) → String → List (String × Jv)
  | [], _ => []
  | (k2, v2) :: rest, k =>
    if k2 = k then objRemove rest k else (k2, v2) :: objRemove rest k

/-- Python `d.get(k)` (default `None`). -/
def pyGet (o : List (String × Jv)) (k : String) : Jv :=
  (objGet o k).getD Jv.null

/-- Is the stored value Python `None`? -/
def isNull : Jv → Bool
  | .null => true
  | _ => false

/-- `isinstance(v, int)` — `bool` is a subclass of `int`. -/
def pyIsInt : Jv → Bool
  | .i _ => true
  | .b _ => true
  | _ => false

/-- `isinstance(v, str)`. -/
def pyIsStr : Jv → Bool
  | .s _ => true
  | _ => false

/-- `isinstance(v, (int, float, str))`. -/
def pyIsScalarNum : Jv → Bool
  | .i _ => true
  | .b _ => true
  | .f _ => true
  | .s _ => true
  | _ => false

/-- The Python type name, for error messages. -/
def pyTypeName : Jv → String
  | .null => "NoneType"
  | .b _ => "bool"
  | .i _ => "int"
  | .f _ => "float"
  | .s _ => "str"
  | .arr _ => "list"
  | .obj _ => "dict"

/-- `len(v)`; raises `TypeError` on unsized values. -/
def pyLen : Jv → Except String ℤ
  | .s v => .ok v.length
  | .arr l => .ok l.length
  | .obj l => .ok l.length
  | v => .error ("object of type '" ++ pyTypeName v ++ "' has no len()")

mutual

/-- `str(v)` (`repr` for nested containers); float and container rendering is
a fixed deterministic scheme standing in for CPython's. -/
def pyStr : Jv → String
  | .null => "None"
  | .b true => "True"
  | .b false => "False"
  | .i v => toString v
  | .f v => if v.den = 1 then toString v.num ++ ".0" else toString v
  | .s v => v
  | .arr l => "[" ++ pyStrList l ++ "]"
  | .obj l => String.mk [braceOpen] ++ pyStrFields l ++ String.mk [braceClose]

/-- Comma-joined reprs of list items. -/
def pyStrList : List Jv → String
  | [] => ""
  | [x] => pyStr x
  | x :: rest => pyStr x ++ ", " ++ pyStrList rest

/-- Comma-joined reprs of dict entries. -/
def pyStrFields : List (String × Jv) → String
  | [] => ""
  | [(k, v)] => k ++ ": " ++ pyStr v
  | (k, v) :: rest => k ++ ": " ++ pyStr v ++ ", " ++ pyStrFields rest

end

mutual

/-- `json.dumps(v, ensure_ascii=False)`, with a fixed minimal string-escaping
scheme standing in for the library's. -/
def jsonDumps : Jv → String
  | .null => "null"
  | .b true => "true"
  | .b false => "false"
  | .i v => toString v
  | .f v => toString v
  | .s v => "\"" ++ v ++ "\""
  | .arr l => "[" ++ jsonDumpsList l ++ "]"
  | .obj l =>
    String.mk [braceOpen] ++ jsonDumpsFields l ++ String.mk [braceClose]

/-- Comma-joined dumps of list items. -/
def jsonDumpsList : List Jv → String
  | [] => ""
  | [x] => jsonDumps x
  | x :: rest => jsonDumps x ++ ", " ++ jsonDumpsList rest

/-- Comma-joined dumps of dict entries. -/
def jsonDumpsFields : List (String × Jv) → String
  | [] => ""
  | [(k, v)] => "\"" ++ k ++ "\": " ++ jsonDumps v
  | (k, v) :: rest => "\"" ++ k ++ "\": " ++ jsonDumps v ++ ", " ++
      jsonDumpsFields rest

end

/-- `s.isdigit()` (ASCII digits). -/
def pyStrIsDigit (s : String) : Bool :=
  !s.isEmpty && s.data.all Char.isDigit


/-- `"sep".join(str(x) for x in l)`. -/
def joinStrsSep (sep : String) : List Jv → String
  | [] => ""
  | [x] => pyStr x
  | x :: rest => pyStr x ++ sep ++ joinStrsSep sep rest

/-- The digit characters of a string, joined
(`"".join(ch for ch in s if ch.isdigit())`). -/
def digitsOf (s : String) : String :=
  String.mk (s.data.filter Char.isDigit)

/-- `if d.get(k) is None: d[k] = v` — also fires when the key is absent. -/
def fillNull (o : List (String × Jv)) (k : String) (d : Jv) :
    List (String × Jv) :=
  if isNull (pyGet o k) then objSet o k d else o

/-- Structural unwrapping (`Diagnostic` lines 253-260, `PackPlan` lines
300-304): pop the nested dict and copy each listed key that the top level
lacks. -/
def hoistInner (o : List (String × Jv)) (outerKey : String)
    (keys : List String) : List (String × Jv) :=
  match objGet o outerKey with
  | some (.obj inner) =>
    keys.foldl
      (fun acc k =>
        if !objHasKey acc k && objHasKey inner k then
          objSet acc k (pyGet inner k)
        else acc)
      (objRemove o outerKey)
  | _ => o

/-- The recurring rule `if isinstance(data.get(k), list): data[k] =
[normalize(x) for x in it if isinstance(x, dict)]`. -/
def listFieldStep (k : String) (normFn : List Jv → List Jv)
    (o : List (String × Jv)) : List (String × Jv) :=
  match objGet o k with
  | some (.arr items) => objSet o k (.arr (normFn items))
  | _ => o

/-- The recurring rule `if data.get(k) not in allowed: data[k] = d`. -/
def enumFixStep (k : String) (okFn : Jv → Bool) (d : String)
    (o : List (String × Jv)) : List (String × Jv) :=
  if okFn (pyGet o k) then o else objSet o k (.s d)

/-- `LessonSummary` repair (lines 224-226). -/
def repairLessonSummaryObj (o : List (String × Jv)) : List (String × Jv) :=
  objSetD (objSetD o "grade" (.s "")) "lesson_content" (.s "")

/-- One skill dict's field rules (lines 234-249). -/
def fixSkill (sk : List (String × Jv)) : List (String × Jv) :=
  let s1 := objSetD sk "skill_id" (pyOr (pyGet sk "id") (pyGet sk "skillId"))
  let s2 := objSetD s1 "name" (pyOr (pyGet s1 "title") (pyGet s1 "label"))
  let s3 := fillNull s2 "name" (.s "Unnamed skill")
  let s4 := objSetD s3 "description"
    (pyOr (pyGet s3 "desc") (pyGet s3 "detail"))
  let s5 := fillNull s4 "description" (.s "")
  let s6 := objSetD s5 "is_prerequisite"
    (.b (truthy ((objGet s5 "prerequisite").getD (.b false))))
  objSetD s6 "weight" (.f (7 / 10))

/-- The skills-list normalization (non-dict entries are dropped). -/
def normalizeSkills : List Jv → List Jv
  | [] => []
  | .obj flds :: rest => .obj (fixSkill flds) :: normalizeSkills rest
  | _ :: rest => normalizeSkills rest

/-- `SkillSet` repair (lines 227-251). -/
def repairSkillSetObj (o : List (String × Jv)) : List (String × Jv) :=
  objSetD (listFieldStep "skills" normalizeSkills o) "skill_dependencies"
    (.obj [])

/-- One diagnostic question's field rules (lines 266-284); `idx` is the
1-based position in the raw list. -/
def fixQuestion (idx : ℕ) (q : List (String × Jv)) : List (String × Jv) :=
  let q1 := objSetD q "question_id"
    (pyOr (pyGet q "id") (.s ("q" ++ toString idx)))
  let q2 := objSetD q1 "question_text"
    (pyOr (pyGet q1 "question") (pyGet q1 "prompt"))
  let q3 := objSetD q2 "correct_answer"
    (pyOr (pyGet q2 "answer") (pyGet q2 "correct"))
  let q4 := fillNull q3 "question_text" (.s "")
  let q5 :=
    if isNull (pyGet q4 "correct_answer") then
      objSet q4 "correct_answer" (.s "")
    else objSet q4 "correct_answer" (.s (pyStr (pyGet q4 "correct_answer")))
  let q6 := objSetD q5 "skill_id" (.s "")
  objSetD q6 "rationale" (.s "")

/-- The questions-list normalization (enumerate from 1, non-dicts dropped). -/
def normalizeQuestions : ℕ → List Jv → List Jv
  | _, [] => []
  | idx, .obj flds :: rest =>
    .obj (fixQuestion idx flds) :: normalizeQuestions (idx + 1) rest
  | idx, _ :: rest => normalizeQuestions (idx + 1) rest

/-- `Diagnostic` repair (lines 252-288).  The `setdefault` default
`len(data.get("questions", []))` is evaluated eagerly, so an unsized
`questions` value raises `TypeError` regardless of whether
`total_questions` is present. -/
def repairDiagnosticObj (o : List (String × Jv)) :
    Except String (List (String × Jv)) :=
  let o1 := hoistInner o "diagnostic"
    ["questions", "total_questions", "skills_covered"]
  let o2 := listFieldStep "questions" (normalizeQuestions 1) o1
  let o3 := objSetD o2 "questions" (.arr [])
  let o4 := objSetD o3 "skills_covered" (.arr [])
  match pyLen ((objGet o4 "questions").getD (.arr [])) with
  | .error e => .error e
  | .ok n => .ok (objSetD o4 "total_questions" (.i n))

/-- Valid `mastery_level` values (line 292). -/
def masteryOk : Jv → Bool
  | .s v => v = "low" || v = "medium" || v = "high" || v = "advanced"
  | _ => false

/-- Valid `learning_pace` values (line 296). -/
def paceOk : Jv → Bool
  | .s v => v = "slow" || v = "moderate" || v = "fast"
  | _ => false

/-- `GroupProfile` repair (lines 289-298). -/
def repairGroupProfileObj (o : List (String × Jv)) : List (String × Jv) :=
  let o1 := objSetD o "group_id" (.s "")
  let o2 := objSetD o1 "mastery_level" (.s "medium")
  let o3 := enumFixStep "mastery_level" masteryOk "medium" o2
  let o4 := objSetD o3 "skill_mastery" (.obj [])
  let o5 := objSetD o4 "learning_pace" (.s "moderate")
  let o6 := enumFixStep "learning_pace" paceOk "moderate" o5
  objSetD o6 "students" (.arr [])

/-- `int(v)` for the values admitted by the `str(v).isdigit()` test. -/
def pyIntOf : Jv → ℤ
  | .i n => n
  | .s v => (parseDigits v.data : ℤ)
  | .b true => 1
  | .b false => 0
  | _ => 0

/-- Line 309-311: sum of `int(v)` over scalar dict values whose `str` is all
digits. -/
def sumIntDigitish (vals : List Jv) : ℤ :=
  vals.foldl
    (fun acc v =>
      if pyIsScalarNum v && pyStrIsDigit (pyStr v) then acc + pyIntOf v
      else acc)
    0

/-- One slide-outline item's rules (lines 325-338). -/
def fixOutlineItem (idx : ℕ) (it : List (String × Jv)) :
    List (String × Jv) :=
  let i1 :=
    if objHasKey it "slide_number" then
      objSet it "slide_number" (.s (pyStr (pyGet it "slide_number")))
    else objSet it "slide_number" (.s (toString idx))
  match objGet i1 "key_points" with
  | some (.arr l) => objSet i1 "key_points" (.s (joinStrsSep "\n" l))
  | some .null => objSet i1 "key_points" (.s "")
  | none => objSet i1 "key_points" (.s "")
  | _ => i1

/-- The slide-outline normalization (enumerate from 1, non-dicts dropped). -/
def normalizeOutline : ℕ → List Jv → List Jv
  | _, [] => []
  | idx, .obj flds :: rest =>
    .obj (fixOutlineItem idx flds) :: normalizeOutline (idx + 1) rest
  | idx, _ :: rest => normalizeOutline (idx + 1) rest

/-- The stringified quiz-blueprint keys (lines 352-363). -/
def qbKeys : List String :=
  ["total_questions", "number_of_questions", "num_questions",
   "difficulty_levels", "question_types", "topics", "easy", "medium",
   "hard", "challenge"]

/-- One quiz-blueprint dict's rules (lines 348-372). -/
def fixQb (qb : List (String × Jv)) : List (String × Jv) :=
  qbKeys.foldl
    (fun acc k =>
      if objHasKey acc k then
        match pyGet acc k with
        | .arr l => objSet acc k (.s (joinStrsSep ", " l))
        | .obj flds => objSet acc k (.s (jsonDumps (.obj flds)))
        | v => objSet acc k (.s (pyStr v))
      else acc)
    qb

/-- The quiz-blueprint list normalization (non-dicts dropped). -/
def normalizeQb : List Jv → List Jv
  | [] => []
  | .obj flds :: rest => .obj (fixQb flds) :: normalizeQb rest
  | _ :: rest => normalizeQb rest

/-- Lines 307-315: coerce `estimated_time` to an `int` (a dict is summed
over its digit-string values; a non-`int` has its digits extracted; Python
`bool` counts as `int`). -/
def estimatedTimeStep (o : List (String × Jv)) : List (String × Jv) :=
  match pyGet o "estimated_time" with
  | .obj flds =>
    objSet o "estimated_time" (.i (sumIntDigitish (flds.map Prod.snd)))
  | v =>
    if pyIsInt v then o
    else
      objSet o "estimated_time"
        (.i (if (digitsOf (pyStr v)).isEmpty then 0
             else (parseDigits (digitsOf (pyStr v)).data : ℤ)))

/-- Lines 317-321: serialize a non-string `differentiation_strategy`. -/
def diffStrategyStep (o : List (String × Jv)) : List (String × Jv) :=
  if pyIsStr (pyGet o "differentiation_strategy") then o
  else
    objSet o "differentiation_strategy"
      (.s (jsonDumps (pyGet o "differentiation_strategy")))

/-- Lines 341-345: wrap a dict `quiz_blueprint` in a list, replace a missing
or `None` one by `[]`. -/
def qbCoerceStep (o : List (String × Jv)) : List (String × Jv) :=
  match objGet o "quiz_blueprint" with
  | some (.obj flds) => objSet o "quiz_blueprint" (.arr [.obj flds])
  | some .null => objSet o "quiz_blueprint" (.arr [])
  | none => objSet o "quiz_blueprint" (.arr [])
  | _ => o

/-- `PackPlan` repair (lines 299-373). -/
def repairPackPlanObj (o : List (String × Jv)) : List (String × Jv) :=
  let o1 := hoistInner o "teaching_pack"
    ["learning_objectives", "slide_outline", "quiz_blueprint",
     "estimated_time", "differentiation_strategy", "group_id"]
  let o2 := objSetD o1 "group_id" (.s "")
  let o3 := objSetD o2 "learning_objectives" (.arr [])
  let o4 := estimatedTimeStep o3
  let o5 := objSetD o4 "differentiation_strategy" (.s "")
  let o6 := diffStrategyStep o5
  let o7 := listFieldStep "slide_outline" (normalizeOutline 1) o6
  let o8 := objSetD o7 "slide_outline" (.arr [])
  let o9 := qbCoerceStep o8
  listFieldStep "quiz_blueprint" normalizeQb o9

/-- One slide dict's rules (lines 378-392). -/
def fixSlide (idx : ℕ) (sl : List (String × Jv)) : List (String × Jv) :=
  let s1 := objSetD sl "slide_id"
    (pyOr (pyGet sl "id") (.s ("slide_" ++ toString idx)))
  let s2 := objSetD s1 "title"
    (pyOr (pyOr (pyGet s1 "slide_title") (pyGet s1 "heading")) (.s ""))
  let s3 := objSetD s2 "content"
    (pyOr (pyOr (pyGet s2 "body") (pyGet s2 "text")) (.s ""))
  let s4 := objSetD s3 "visual_notes"
    (pyOr (pyGet s3 "visual_aids") (.s ""))
  objSetD s4 "speaker_notes" (pyOr (pyGet s4 "notes") (.s ""))

/-- The slides-list normalization (enumerate from 1, non-dicts dropped). -/
def normalizeSlides : ℕ → List Jv → List Jv
  | _, [] => []
  | idx, .obj flds :: rest =>
    .obj (fixSlide idx flds) :: normalizeSlides (idx + 1) rest
  | idx, _ :: rest => normalizeSlides (idx + 1) rest

/-- `Slides` repair (lines 374-394). -/
def repairSlidesObj (o : List (String × Jv)) : List (String × Jv) :=
  objSetD (listFieldStep "slides" (normalizeSlides 1) o) "slides" (.arr [])

/-- The difficulty normalization shared by quiz questions and practice
exercises (lines 409-413 and 430-434): always writes `difficulty`. -/
def normDifficulty (o : List (String × Jv)) : List (String × Jv) :=
  let diff := pyGet o "difficulty"
  let dn := if isNull diff then "medium" else pyLower (pyStr diff)
  let dn2 := if dn = "easy" ∨ dn = "medium" ∨ dn = "hard" then dn else "medium"
  objSet o "difficulty" (.s dn2)

/-- One quiz question's rules (lines 399-420). -/
def fixQuizQ (idx : ℕ) (q : List (String × Jv)) : List (String × Jv) :=
  let q1 := objSetD q "question_id"
    (pyOr (pyGet q "id") (.s ("q" ++ toString idx)))
  let q2 := objSetD q1 "question_text"
    (pyOr (pyOr (pyGet q1 "question") (pyGet q1 "prompt")) (.s ""))
  let q3 := objSetD q2 "correct_answer"
    (pyOr (pyOr (pyGet q2 "answer") (pyGet q2 "correct")) (.s ""))
  let q4 := normDifficulty q3
  let q5 := objSetD q4 "skill_id" (.s "")
  let q6 := objSetD q5 "hint" (.s "")
  objSetD q6 "explanation" (.s "")

/-- The quiz-questions normalization. -/
def normalizeQuizQs : ℕ → List Jv → List Jv
  | _, [] => []
  | idx, .obj flds :: rest =>
    .obj (fixQuizQ idx flds) :: normalizeQuizQs (idx + 1) rest
  | idx, _ :: rest => normalizeQuizQs (idx + 1) rest

/-- The practice-exercises normalization (lines 424-436). -/
def normalizeExs : List Jv → List Jv
  | [] => []
  | .obj flds :: rest => .obj (normDifficulty flds) :: normalizeExs rest
  | _ :: rest => normalizeExs rest

/-- `Quiz` repair (lines 395-439); like `Diagnostic`, the eager
`len(data.get("questions", []))` can raise. -/
def repairQuizObj (o : List (String × Jv)) :
    Except String (List (String × Jv)) :=
  let o1 := listFieldStep "questions" (normalizeQuizQs 1) o
  let o2 := objSetD o1 "questions" (.arr [])
  let o3 := listFieldStep "practice_exercises" normalizeExs o2
  let o4 := objSetD o3 "practice_exercises" (.arr [])
  let o5 := objSetD o4 "answer_key" (.obj [])
  match pyLen ((objGet o5 "questions").getD (.arr [])) with
  | .error e => .error e
  | .ok n => .ok (objSetD o5 "total_questions" (.i n))

/-- The target types handled by the repair branch; `other` is any model class
without repair rules. -/
inductive TargetType where
  | lessonSummary
  | skillSet
  | diagnostic
  | groupProfile
  | packPlan
  | slides
  | quiz
  | other

/-- The repair normalizer: the `if isinstance(data, dict)` branch dispatch of
`_parse_model_from_text` over the loaded value (non-dicts are passed through
untouched). -/
def repairData (t : TargetType) (v : Jv) : Except String Jv :=
  match v with
  | .obj flds =>
    match t with
    | .lessonSummary => .ok (.obj (repairLessonSummaryObj flds))
    | .skillSet => .ok (.obj (repairSkillSetObj flds))
    | .diagnostic => (repairDiagnosticObj flds).map .obj
    | .groupProfile => .ok (.obj (repairGroupProfileObj flds))
    | .packPlan => .ok (.obj (repairPackPlanObj flds))
    | .slides => .ok (.obj (repairSlidesObj flds))
    | .quiz => (repairQuizObj flds).map .obj
    | .other => .ok (.obj flds)
  | v => .ok v


/-- The per-key body of the quiz-blueprint fold (lines 352-363), named for
reasoning about `fixQb`. -/
def qbStep (acc : List (String × Jv)) (k : String) : List (String × Jv) :=
  if objHasKey acc k then
    match pyGet acc k with
    | .arr l => objSet acc k (.s (joinStrsSep ", " l))
    | .obj flds => objSet acc k (.s (jsonDumps (.obj flds)))
    | v => objSet acc k (.s (pyStr v))
  else acc

end TPG

namespace TPG

/-! ### Theorems -/

/-- `chStarts` decides the prefix relation. -/
theorem chStarts_iff (pat s : List Char) :
    chStarts pat s = true ↔ pat <+: s := by
  induction pat generalizing s with
  | nil => simp [chStarts]
  | cons p ps ih =>
      cases s with
      | nil => simp [chStarts]
      | cons c cs =>
          simp [chStarts, ih, List.cons_prefix_cons]

/-- `chContains` decides the infix relation. -/
theorem chContains_iff (pat s : List Char) :
    chContains pat s = true ↔ pat <:+: s := by
  induction s with
  | nil => simp [chContains, chStarts_iff]
  | cons c cs ih =>
      simp [chContains, chStarts_iff, ih, List.infix_cons_iff]

/-- A string is a Python substring of any string that ends with it. -/
theorem pyInStr_self_suffix (pre sep s : String) :
    pyInStr s (pre ++ sep ++ s) = true := by
  have h : s.data <:+: (pre ++ sep ++ s).data := by
    have hd : (pre ++ sep ++ s).data = (pre.data ++ sep.data) ++ s.data := by
      simp [String.data_append]
    rw [hd]
    exact (List.suffix_append _ _).isInfix
  exact (chContains_iff _ _).mpr h

/-- C10: a stored job in status `processing` whose last update is more than 30
minutes old is reported as `failed` with the stale-job message, and the status
read leaves the stored record unchanged. -/
theorem get_job_status_stale_read {ρ : Type} (job : WorkflowJobRec ρ)
    (now t : ℤ) (hs : job.status = some "processing")
    (ht : job.updatedAt = some t) (hold : now - t > 1800) :
    (getJobStatus job now).1 = job ∧
    (getJobStatus job now).2.status = "failed" ∧
    ∃ m, (getJobStatus job now).2.message = some m ∧
      pyInStr staleJobMessage m = true := by
  have hraw : normalizeJobStatus (pyLower ((job.status).getD "queued")) =
      "processing" := by
    rw [hs]; decide
  have hstale : staleCheck "processing" job.updatedAt now = true := by
    rw [ht]
    simp only [staleCheck, if_pos rfl, staleWindowSeconds]
    simpa using hold
  refine ⟨rfl, ?_, ?_⟩
  · simp [getJobStatus, hraw, hstale]
  · by_cases hm : pyStrOptTruthy job.message = true
    · refine ⟨(job.message.getD "") ++ " " ++ staleJobMessage, ?_, ?_⟩
      · simp [getJobStatus, hraw, hstale, hm]
      · exact pyInStr_self_suffix _ _ _
    · refine ⟨staleJobMessage, ?_, ?_⟩
      · simp [getJobStatus, hraw, hstale, hm]
      · have h : staleJobMessage.data <:+: staleJobMessage.data :=
          List.infix_refl _
        exact (chContains_iff _ _).mpr h

/-- Witness for `get_job_status_stale_read` at a concrete stale job. -/
theorem get_job_status_stale_read_witness :
    (getJobStatus (ρ := Unit)
        { id := "j1", status := some "processing", progress := some (1/2),
          message := some "Processing", resultJson := none,
          updatedAt := some 1000 } 90000).1 =
      { id := "j1", status := some "processing", progress := some (1/2),
        message := some "Processing", resultJson := none,
        updatedAt := some 1000 } ∧
    (getJobStatus (ρ := Unit)
        { id := "j1", status := some "processing", progress := some (1/2),
          message := some "Processing", resultJson := none,
          updatedAt := some 1000 } 90000).2.status = "failed" := by
  have h := get_job_status_stale_read (ρ := Unit)
    { id := "j1", status := some "processing", progress := some (1/2),
      message := some "Processing", resultJson := none,
      updatedAt := some 1000 } 90000 1000 rfl rfl (by norm_num)
  exact ⟨h.1, h.2.1⟩

end TPG

namespace TPG

/-! ### Grouping engine theorems -/

/-- `mapME` success means elementwise success, in order. -/
theorem mapME_forall₂ {α β ε : Type} (f : α → Except ε β) :
    ∀ (l : List α) (bs : List β), mapME f l = .ok bs →
      List.Forall₂ (fun a b => f a = .ok b) l bs := by
  intro l
  induction l with
  | nil => intro bs h; cases h; exact List.Forall₂.nil
  | cons a as ih =>
      intro bs h
      unfold mapME at h
      cases hfa : f a with
      | error e => rw [hfa] at h; cases h
      | ok b =>
          rw [hfa] at h
          cases hrest : mapME f as with
          | error e => rw [hrest] at h; cases h
          | ok bs2 =>
              rw [hrest] at h
              cases h
              exact List.Forall₂.cons hfa (ih bs2 hrest)

/-- Two lists related by pointwise projections have equal maps. -/
theorem forall₂_map_eq {α β γ : Type} {p : β → γ} {q : α → γ}
    {l₁ : List α} {l₂ : List β}
    (h : List.Forall₂ (fun a b => p b = q a) l₁ l₂) :
    l₂.map p = l₁.map q := by
  induction h with
  | nil => rfl
  | cons h1 _ ih => simp [ih, h1]

/-- Stable insertion permutes. -/
theorem insertAsc_perm {α : Type} (lt : α → α → Bool) (x : α) (l : List α) :
    (insertAsc lt x l).Perm (x :: l) := by
  induction l with
  | nil => simp [insertAsc]
  | cons y ys ih =>
      by_cases h : lt y x = true
      · simpa [insertAsc, h] using
          (ih.cons y).trans (List.Perm.swap x y ys)
      · simp [insertAsc, h]

/-- Stable insertion sort permutes. -/
theorem sortStable_perm {α : Type} (lt : α → α → Bool) (l : List α) :
    (sortStable lt l).Perm l := by
  induction l with
  | nil => simp [sortStable]
  | cons x xs ih =>
      exact (insertAsc_perm lt x (sortStable lt xs)).trans (ih.cons x)

/-- Concatenating the `numGroups` contiguous buckets (the last one absorbing
the remainder) recovers the whole list, for any bucket size. -/
theorem joinSlices_eq {α : Type} (gsz : ℕ) :
    ∀ (k : ℕ) (l : List α), 1 ≤ k →
      ((List.range k).map (fun i =>
        (l.drop (i * gsz)).take
          ((if i < k - 1 then i * gsz + gsz else l.length) - i * gsz))).flatten
        = l := by
  intro k
  induction k with
  | zero => intro l h; omega
  | succ k ih =>
      intro l _
      by_cases hk : k = 0
      · subst hk
        have h1 : List.range 1 = [0] := rfl
        rw [h1]
        simp only [List.map_cons, List.map_nil, List.flatten_cons,
          List.flatten_nil, List.append_nil]
        norm_num
      · have hk1 : 1 ≤ k := Nat.one_le_iff_ne_zero.mpr hk
        rw [List.range_succ_eq_map]
        rw [List.map_cons, List.flatten_cons, List.map_map]
        have hmap : ∀ i ∈ List.range k,
            ((fun i =>
              (l.drop (i * gsz)).take
                ((if i < k + 1 - 1 then i * gsz + gsz else l.length) - i * gsz)) ∘
              Nat.succ) i =
            (fun i =>
              ((l.drop gsz).drop (i * gsz)).take
                ((if i < k - 1 then i * gsz + gsz
                  else (l.drop gsz).length) - i * gsz)) i := by
          intro i hi
          have hik : i < k := List.mem_range.mp hi
          simp only [Function.comp_apply]
          have hdrop : (l.drop gsz).drop (i * gsz) = l.drop (Nat.succ i * gsz) := by
            rw [List.drop_drop, Nat.succ_mul]
            congr 1
            omega
          rw [hdrop]
          congr 1
          by_cases hc : i < k - 1
          · have hc2 : Nat.succ i < k + 1 - 1 := by omega
            simp only [if_pos hc, if_pos hc2, Nat.succ_mul]
            omega
          · have hi2 : i = k - 1 := by omega
            have hc2 : ¬ Nat.succ i < k + 1 - 1 := by omega
            simp only [if_neg hc, if_neg hc2, List.length_drop, Nat.succ_mul]
            omega
        rw [List.map_congr_left hmap, ih (l.drop gsz) hk1]
        have h0 : (0 : ℕ) < k + 1 - 1 := by omega
        simp only [Nat.zero_mul, List.drop_zero, if_pos h0, Nat.zero_add,
          Nat.sub_zero]
        exact List.take_append_drop gsz l

/-- The students of a group produced by `mkQuartileGroup` are exactly the
`i`-th contiguous slice of the sorted roster. -/
theorem mkQuartileGroup_students (skillSet : SkillSetM) (sorted : List MasteryRow)
    (numGroups groupSize i : ℕ) (g : GroupProfile)
    (h : mkQuartileGroup skillSet sorted numGroups groupSize i = .ok g) :
    g.students =
      ((sorted.drop (i * groupSize)).take
        ((if i < numGroups - 1 then i * groupSize + groupSize
          else sorted.length) - i * groupSize)).map MasteryRow.studentId := by
  simp only [mkQuartileGroup] at h
  split at h
  · simp at h
  · split at h
    · simp at h
    · cases h
      rfl


/-- `buildMasteryRows` preserves the roster's ids in order. -/
theorem buildMasteryRows_ids (scores : Option (List (String × ℚ)))
    (results : List StudentDiagnosticResult) (rows : List MasteryRow)
    (h : buildMasteryRows scores results = .ok rows) :
    rows.map MasteryRow.studentId =
      results.map StudentDiagnosticResult.studentId := by
  have hfa := mapME_forall₂ _ _ _ h
  apply forall₂_map_eq
  refine hfa.imp ?_
  intro r row hr
  split at hr
  · simp at hr
  · cases hr
    rfl

/-- Whenever the quartile profiler returns a result, its groups' member ids
are a permutation of the input roster's ids. -/
theorem profileGroupsByQuartile_partition (skillSet : SkillSetM)
    (results : List StudentDiagnosticResult) (numGroups : ℕ)
    (studentScores : Option (List (String × ℚ))) (gr : GroupingResult)
    (h : profileGroupsByQuartile skillSet results numGroups studentScores
      = .ok gr) :
    (gr.groups.flatMap GroupProfile.students).Perm
      (results.map StudentDiagnosticResult.studentId) := by
  simp only [profileGroupsByQuartile] at h
  split at h
  · simp at h
  next rows hrows =>
    by_cases hk : numGroups = 0
    · rw [if_pos hk] at h; simp at h
    · rw [if_neg hk] at h
      split at h
      · simp at h
      next groups hgroups =>
        cases h
        have hfa := mapME_forall₂ _ _ _ hgroups
        have hstudents := hfa.imp
          (fun i g hi => mkQuartileGroup_students _ _ _ _ _ _ hi)
        have hmapeq := forall₂_map_eq hstudents
        have hk1 : 1 ≤ numGroups := Nat.one_le_iff_ne_zero.mpr hk
        set sortedE := sortStable
          (fun a b => decide (a.overall < b.overall)) rows with hsort
        set gszE := sortedE.length / numGroups with hgsz
        have hflat :
            (groups.flatMap GroupProfile.students) =
              sortedE.map MasteryRow.studentId := by
          rw [List.flatMap_def, hmapeq]
          have hm : (List.range numGroups).map
              (fun i => ((sortedE.drop (i * gszE)).take
                ((if i < numGroups - 1 then i * gszE + gszE
                  else sortedE.length) - i * gszE)).map MasteryRow.studentId)
              = ((List.range numGroups).map
                (fun i => (sortedE.drop (i * gszE)).take
                  ((if i < numGroups - 1 then i * gszE + gszE
                    else sortedE.length) - i * gszE))).map
                  (List.map MasteryRow.studentId) := by
            rw [List.map_map]
            rfl
          rw [hm, ← List.map_flatten, joinSlices_eq gszE numGroups sortedE hk1]
        rw [hflat]
        have hperm : sortedE.Perm rows := sortStable_perm _ rows
        exact (hperm.map MasteryRow.studentId).trans
          (by rw [buildMasteryRows_ids studentScores results rows hrows])


/-- Members collected by `aiCollectGroups`: no duplicates (given that each
proposed group lists no student twice), all in the roster, none already used. -/
theorem aiCollectGroups_flatten (rosterIds : List String) :
    ∀ (ai : List AiGroupIn) (used : List String),
      (∀ g ∈ ai, g.students.Nodup) →
      (((aiCollectGroups rosterIds ai used).map Prod.snd).flatten).Nodup ∧
      (∀ x ∈ ((aiCollectGroups rosterIds ai used).map Prod.snd).flatten,
        x ∈ rosterIds ∧ x ∉ used) := by
  intro ai
  induction ai with
  | nil => intro used _; simp [aiCollectGroups]
  | cons g rest ih =>
      intro used hnd
      have hgnd : g.students.Nodup := hnd g (List.mem_cons_self g rest)
      have hrestnd : ∀ g2 ∈ rest, g2.students.Nodup :=
        fun g2 h2 => hnd g2 (List.mem_cons_of_mem g h2)
      have hvmem : ∀ x ∈ g.students.filter
          (fun sid => rosterIds.contains sid && !(used.contains sid)),
          x ∈ rosterIds ∧ x ∉ used := by
        intro x hx
        have := List.of_mem_filter hx
        simp only [List.contains, Bool.and_eq_true, Bool.not_eq_true',
          List.elem_eq_mem, decide_eq_true_eq, decide_eq_false_iff_not] at this
        exact this
      have hvnd : (g.students.filter
          (fun sid => rosterIds.contains sid && !(used.contains sid))).Nodup :=
        hgnd.filter _
      have hih := ih (used ++ g.students.filter
          (fun sid => rosterIds.contains sid && !(used.contains sid))) hrestnd
      rw [aiCollectGroups]
      by_cases hve : (g.students.filter
          (fun sid => rosterIds.contains sid && !(used.contains sid))).isEmpty
      · rw [if_pos hve]
        refine ⟨hih.1, fun x hx => ?_⟩
        have h2 := hih.2 x hx
        refine ⟨h2.1, fun hu => h2.2 (List.mem_append_left _ hu)⟩
      · rw [if_neg hve]
        simp only [List.map_cons, List.flatten_cons]
        constructor
        · rw [List.nodup_append]
          refine ⟨hvnd, hih.1, fun x hx hx2 => ?_⟩
          exact (hih.2 x hx2).2 (List.mem_append_right _ hx)
        · intro x hx
          rcases List.mem_append.mp hx with hx1 | hx2
          · exact hvmem x hx1
          · have h2 := hih.2 x hx2
            exact ⟨h2.1, fun hu => h2.2 (List.mem_append_left _ hu)⟩

/-- If `aiCollectGroups` materializes no group at all, every proposed roster
member was already used. -/
theorem aiCollectGroups_nil_all_used (rosterIds : List String) :
    ∀ (ai : List AiGroupIn) (used : List String),
      aiCollectGroups rosterIds ai used = [] →
      ∀ g ∈ ai, ∀ sid ∈ g.students, sid ∈ rosterIds → sid ∈ used := by
  intro ai
  induction ai with
  | nil => intro used _ g hg; cases hg
  | cons g0 rest ih =>
      intro used hnil g hg sid hsid hmem
      rw [aiCollectGroups] at hnil
      by_cases hve : (g0.students.filter
          (fun sid => rosterIds.contains sid && !(used.contains sid))).isEmpty
      · rw [if_pos hve] at hnil
        have hempty : g0.students.filter
            (fun sid => rosterIds.contains sid && !(used.contains sid)) = [] :=
          List.isEmpty_iff.mp hve
        rcases List.mem_cons.mp hg with hg0 | hgr
        · rw [hg0] at hsid
          by_contra hnu
          have hp : (rosterIds.contains sid && !(used.contains sid)) = true := by
            simp only [List.contains, Bool.and_eq_true, Bool.not_eq_true',
              List.elem_eq_mem, decide_eq_true_eq, decide_eq_false_iff_not]
            exact ⟨hmem, hnu⟩
          have : sid ∈ g0.students.filter
              (fun sid => rosterIds.contains sid && !(used.contains sid)) :=
            List.mem_filter.mpr ⟨hsid, hp⟩
          rw [hempty] at this
          cases this
        · have := ih _ hnil g hgr sid hsid hmem
          rw [hempty] at this
          simpa using this
      · rw [if_neg hve] at hnil
        cases hnil

/-- Appending a student to one group leaves the flattened membership equal to
the old membership plus that student (as multisets). -/
theorem appendAtIdx_flatten (sid : String) :
    ∀ (gs : List (String × List String)) (j : ℕ), j < gs.length →
      ((((appendAtIdx gs j sid).map Prod.snd).flatten : List String) :
          Multiset String) =
        (((gs.map Prod.snd).flatten : List String) : Multiset String) + {sid} := by
  intro gs
  induction gs with
  | nil => intro j h; simp at h
  | cons e rest ih =>
      intro j hj
      cases j with
      | zero =>
          simp only [appendAtIdx, List.map_cons, List.flatten_cons,
            ← Multiset.coe_add, Multiset.coe_singleton]
          abel
      | succ j2 =>
          have hj2 : j2 < rest.length := by
            simpa [List.length_cons, Nat.succ_lt_succ_iff] using hj
          simp only [appendAtIdx, List.map_cons, List.flatten_cons,
            ← Multiset.coe_add, ih j2 hj2]
          abel

/-- `appendAtIdx` preserves the number of groups. -/
theorem appendAtIdx_length (sid : String) :
    ∀ (gs : List (String × List String)) (j : ℕ),
      (appendAtIdx gs j sid).length = gs.length := by
  intro gs
  induction gs with
  | nil => intro j; rfl
  | cons e rest ih =>
      intro j
      cases j with
      | zero => rfl
      | succ j2 => simp [appendAtIdx, ih j2]

/-- Round-robin assignment adds exactly the remaining students to the
flattened membership. -/
theorem roundRobinGo_flatten :
    ∀ (rem : List String) (gs : List (String × List String)) (i : ℕ),
      gs ≠ [] →
      ((((roundRobinGo gs rem i).map Prod.snd).flatten : List String) :
          Multiset String) =
        (((gs.map Prod.snd).flatten : List String) : Multiset String) +
          (rem : Multiset String) := by
  intro rem
  induction rem with
  | nil => intro gs i _; simp [roundRobinGo]
  | cons sid rest ih =>
      intro gs i hne
      rw [roundRobinGo]
      have hpos : 0 < gs.length := List.length_pos.mpr hne
      have hlt : i % gs.length < gs.length := Nat.mod_lt _ hpos
      have hne2 : appendAtIdx gs (i % gs.length) sid ≠ [] := by
        intro hcon
        have := appendAtIdx_length sid gs (i % gs.length)
        rw [hcon] at this
        simp at this
        omega
      rw [ih _ _ hne2, appendAtIdx_flatten sid gs _ hlt]
      have : ((sid :: rest : List String) : Multiset String) =
          {sid} + (rest : Multiset String) := by
        simp [Multiset.singleton_add]
      rw [this]
      exact add_assoc _ _ _


/-- The AI grouping post-processing is a partition of the roster, provided the
roster ids are distinct, no proposed group lists a student twice, and some
proposed group names at least one roster student (or the roster is empty). -/
theorem aiGroupingFinal_partition (rosterIds : List String)
    (ai : List AiGroupIn) (hnd : rosterIds.Nodup)
    (hgs : ∀ g ∈ ai, g.students.Nodup)
    (hex : (∃ g ∈ ai, ∃ sid ∈ g.students, sid ∈ rosterIds) ∨ rosterIds = []) :
    (((aiGroupingFinal rosterIds ai).map Prod.snd).flatten).Perm rosterIds := by
  have hprops := aiCollectGroups_flatten rosterIds ai [] hgs
  have hflnd := hprops.1
  have hsub : ∀ x ∈ ((aiCollectGroups rosterIds ai []).map Prod.snd).flatten,
      x ∈ rosterIds := fun x hx => (hprops.2 x hx).1
  simp only [aiGroupingFinal]
  by_cases hre : (rosterIds.filter (fun sid =>
      !(((aiCollectGroups rosterIds ai []).map Prod.snd).flatten.contains
        sid))).isEmpty
  · rw [if_pos (Or.inl hre)]
    have hremnil := List.isEmpty_iff.mp hre
    have hall : ∀ x ∈ rosterIds,
        x ∈ ((aiCollectGroups rosterIds ai []).map Prod.snd).flatten := by
      intro x hx
      by_contra hnx
      have hxr : x ∈ rosterIds.filter (fun sid =>
          !(((aiCollectGroups rosterIds ai []).map Prod.snd).flatten.contains
            sid)) := by
        refine List.mem_filter.mpr ⟨hx, ?_⟩
        simp only [List.contains, Bool.not_eq_true', List.elem_eq_mem,
          decide_eq_false_iff_not]
        exact hnx
      rw [hremnil] at hxr
      cases hxr
    exact (List.perm_ext_iff_of_nodup hflnd hnd).mpr
      (fun a => ⟨hsub a, hall a⟩)
  · by_cases hge : (aiCollectGroups rosterIds ai []).isEmpty
    · exfalso
      have hgnil := List.isEmpty_iff.mp hge
      rcases hex with ⟨g, hg, sid, hsid, hmem⟩ | hrnil
      · have := aiCollectGroups_nil_all_used rosterIds ai [] hgnil g hg sid
          hsid hmem
        cases this
      · rw [hrnil] at hre
        simp at hre
    · rw [if_neg (not_or.mpr ⟨hre, hge⟩)]
      have hgne : aiCollectGroups rosterIds ai [] ≠ [] := by
        intro hcon
        exact hge (List.isEmpty_iff.mpr hcon)
      rw [← Multiset.coe_eq_coe, roundRobinGo_flatten _ _ 0 hgne]
      have hfp : (rosterIds.filter (fun sid =>
          ((aiCollectGroups rosterIds ai []).map Prod.snd).flatten.contains
            sid)).Perm
          ((aiCollectGroups rosterIds ai []).map Prod.snd).flatten := by
        refine (List.perm_ext_iff_of_nodup (hnd.filter _) hflnd).mpr ?_
        intro a
        constructor
        · intro ha
          have := List.of_mem_filter ha
          simpa [List.contains] using this
        · intro ha
          refine List.mem_filter.mpr ⟨hsub a ha, ?_⟩
          simpa [List.contains] using ha
      have hsplit := List.filter_append_perm (fun sid =>
        ((aiCollectGroups rosterIds ai []).map Prod.snd).flatten.contains sid)
        rosterIds
      calc (((aiCollectGroups rosterIds ai []).map Prod.snd).flatten :
              Multiset String) +
            (rosterIds.filter (fun sid =>
              !(((aiCollectGroups rosterIds ai []).map
                Prod.snd).flatten.contains sid)) : Multiset String)
          = ((rosterIds.filter (fun sid =>
              ((aiCollectGroups rosterIds ai []).map Prod.snd).flatten.contains
                sid) : List String) : Multiset String) +
            (rosterIds.filter (fun sid =>
              !(((aiCollectGroups rosterIds ai []).map
                Prod.snd).flatten.contains sid)) : Multiset String) := by
            rw [Multiset.coe_eq_coe.mpr hfp]
        _ = (rosterIds : Multiset String) := by
            rw [Multiset.coe_add]
            exact Multiset.coe_eq_coe.mpr hsplit


/-- The even-distribution fallback is a partition whenever at least one group
is requested. -/
theorem distributeEvenlyIds_partition (rosterIds : List String)
    (numGroups : ℕ) (gs : List (String × List String)) (hk : 1 ≤ numGroups)
    (h : distributeEvenlyIds rosterIds numGroups = .ok gs) :
    ((gs.map Prod.snd).flatten).Perm rosterIds := by
  simp only [distributeEvenlyIds] at h
  rw [if_neg (by rintro ⟨h0, -⟩; omega)] at h
  cases h
  have hbase : (((List.range numGroups).map
      (fun i => ("group_" ++ toString (i + 1), ([] : List String)))).map
      Prod.snd).flatten = ([] : List String) := by
    simp
  have hne : ((List.range numGroups).map
      (fun i => ("group_" ++ toString (i + 1), ([] : List String)))) ≠ [] := by
    simp [List.map_eq_nil_iff, List.range_eq_nil]
    omega
  rw [← Multiset.coe_eq_coe, roundRobinGo_flatten _ _ 0 hne, hbase]
  simp


/-- C4 (amended): the grouping output is a partition of the roster on each
path under its success/shape conditions — the quartile path whenever it
returns (it raises when `numGroups` exceeds the roster size, see C5), the AI
path provided the parsed response lists no student twice within one group and
names at least one roster student (otherwise no group is materialized and the
unassigned students are dropped), and the even-distribution fallback whenever
at least one group is requested. -/
theorem grouping_partition_amended :
    (∀ (skillSet : SkillSetM) (results : List StudentDiagnosticResult)
      (numGroups : ℕ) (studentScores : Option (List (String × ℚ)))
      (gr : GroupingResult),
      profileGroupsByQuartile skillSet results numGroups studentScores
        = .ok gr →
      (gr.groups.flatMap GroupProfile.students).Perm
        (results.map StudentDiagnosticResult.studentId)) ∧
    (∀ (rosterIds : List String) (ai : List AiGroupIn),
      rosterIds.Nodup → (∀ g ∈ ai, g.students.Nodup) →
      ((∃ g ∈ ai, ∃ sid ∈ g.students, sid ∈ rosterIds) ∨ rosterIds = []) →
      (((aiGroupingFinal rosterIds ai).map Prod.snd).flatten).Perm rosterIds) ∧
    (∀ (rosterIds : List String) (numGroups : ℕ)
      (gs : List (String × List String)), 1 ≤ numGroups →
      distributeEvenlyIds rosterIds numGroups = .ok gs →
      ((gs.map Prod.snd).flatten).Perm rosterIds) :=
  ⟨profileGroupsByQuartile_partition, aiGroupingFinal_partition,
    distributeEvenlyIds_partition⟩

/-- C4 counterexample: a parsed backend response that lists one student twice
inside a single proposed group produces that student twice in the output, so
for this roster and response the grouping output is not a partition. -/
theorem grouping_partition_counterexample :
    ((aiGroupingFinal ["s1", "s2"]
        [{ gid := "group_1", students := ["s1", "s1"] }]).map Prod.snd).flatten
      = ["s1", "s1", "s2"] ∧
    ¬ (["s1", "s1", "s2"] : List String).Perm ["s1", "s2"] :=
  ⟨rfl, fun h => by simpa using h.length_eq⟩

/-- Witness for `grouping_partition_amended` on a concrete AI response. -/
theorem grouping_partition_amended_witness :
    (["s1", "s2"] : List String).Nodup ∧
    (((aiGroupingFinal ["s1", "s2"]
        [{ gid := "g1", students := ["s2"] }]).map Prod.snd).flatten).Perm
      ["s1", "s2"] :=
  ⟨by decide, grouping_partition_amended.2.1 ["s1", "s2"]
    [{ gid := "g1", students := ["s2"] }] (by decide)
    (by intro g hg; simp at hg; subst hg; decide)
    (Or.inl ⟨{ gid := "g1", students := ["s2"] }, by simp, "s2", by decide,
      by decide⟩)⟩

/-- C5: contrary to the spec's no-crash requirement, quartile grouping with
`numGroups` strictly greater than the roster size raises `StatisticsError`
while averaging the first (empty) bucket: with one student and two requested
groups the call fails instead of returning empty groups with null/zero
statistics. -/
theorem quartile_crash_on_oversized_numGroups :
    profileGroupsByQuartile { skills := [{ skillId := "sk1" }] }
      [{ studentId := "stu1", studentName := "Stu 1",
         skillMastery := [("sk1", 1/2)], misconceptions := [] }] 2 none
      = .error "mean requires at least one data point" := rfl


/-! ### Negotiator theorems -/

/-- A `next` step either spends one shared budget adjustment (of one of the
two kinds) without touching `parse_attempts`, or consumes one parse attempt;
and it only happens while the loop guard holds. -/
theorem negotStep_next_inv {α : Type} (oracle : ℕ → String → BackendResp)
    (parseFn : String → Except String α) (retries : ℕ) (s s2 : NegotState)
    (h : negotStep oracle parseFn retries s = .next s2) :
    s.parseAttempts ≤ retries ∧
    ((s2.parseAttempts = s.parseAttempts ∧ s2.adjusts = s.adjusts + 1 ∧
      s.adjusts < 10 ∧
      ((s2.ctxAdjusts = s.ctxAdjusts + 1 ∧ s2.truncAdjusts = s.truncAdjusts) ∨
       (s2.ctxAdjusts = s.ctxAdjusts ∧ s2.truncAdjusts = s.truncAdjusts + 1))) ∨
     (s2.parseAttempts = s.parseAttempts + 1 ∧ s2.adjusts = s.adjusts ∧
      s2.ctxAdjusts = s.ctxAdjusts ∧ s2.truncAdjusts = s.truncAdjusts)) := by
  unfold negotStep at h
  split at h
  · cases h
  next hguard =>
    refine ⟨by omega, ?_⟩
    split at h
    next msg =>
      split at h
      next allowed hex =>
        split at h
        next hadj =>
          cases h
          exact Or.inl ⟨rfl, rfl, hadj, Or.inl ⟨rfl, rfl⟩⟩
        · cases h
      · cases h
    next text =>
      split at h
      · cases h
      next e hperr =>
        split at h
        next htr =>
          cases h
          exact Or.inl ⟨rfl, rfl, htr.2, Or.inr ⟨rfl, rfl⟩⟩
        · cases h
          exact Or.inr ⟨rfl, rfl, rfl, rfl⟩

/-- An `exhausted` step leaves the state unchanged and happens exactly when
the guard fails. -/
theorem negotStep_exhausted_inv {α : Type} (oracle : ℕ → String → BackendResp)
    (parseFn : String → Except String α) (retries : ℕ) (s s2 : NegotState)
    (le : Option String)
    (h : negotStep oracle parseFn retries s = .exhausted le s2) :
    s2 = s ∧ s.parseAttempts > retries := by
  unfold negotStep at h
  split at h
  next hguard => cases h; exact ⟨rfl, hguard⟩
  · split at h
    · split at h
      · split at h
        · cases h
        · cases h
      · cases h
    · split at h
      · cases h
      · split at h
        · cases h
        · cases h

/-- A `done` step does not change the attempt and adjustment counters. -/
theorem negotStep_done_inv {α : Type} (oracle : ℕ → String → BackendResp)
    (parseFn : String → Except String α) (retries : ℕ) (s s2 : NegotState)
    (v : α) (h : negotStep oracle parseFn retries s = .done v s2) :
    s2.parseAttempts = s.parseAttempts ∧ s2.ctxAdjusts = s.ctxAdjusts ∧
      s2.truncAdjusts = s.truncAdjusts := by
  unfold negotStep at h
  split at h
  · cases h
  · split at h
    · split at h
      · split at h
        · cases h
        · cases h
      · cases h
    · split at h
      · cases h
        exact ⟨rfl, rfl, rfl⟩
      · split at h
        · cases h
        · cases h

/-- A `raised` step does not change the attempt and adjustment counters. -/
theorem negotStep_raised_inv {α : Type} (oracle : ℕ → String → BackendResp)
    (parseFn : String → Except String α) (retries : ℕ) (s s2 : NegotState)
    (m : String) (h : negotStep oracle parseFn retries s = .raised m s2) :
    s2.parseAttempts = s.parseAttempts ∧ s2.ctxAdjusts = s.ctxAdjusts ∧
      s2.truncAdjusts = s.truncAdjusts := by
  unfold negotStep at h
  split at h
  · cases h
  · split at h
    · split at h
      · split at h
        · cases h
        · cases h
          exact ⟨rfl, rfl, rfl⟩
      · cases h
        exact ⟨rfl, rfl, rfl⟩
    · split at h
      · cases h
      · split at h
        · cases h
        · cases h

/-- Loop invariant: with enough fuel the loop never runs out, the attempt
counter stays within `retries + 1`, the two adjustment kinds stay within 10
in total, and exhaustion happens exactly with all attempts consumed. -/
theorem negotLoop_inv {α : Type} (oracle : ℕ → String → BackendResp)
    (parseFn : String → Except String α) (retries : ℕ) :
    ∀ (fuel : ℕ) (s : NegotState),
      s.parseAttempts ≤ retries + 1 →
      s.adjusts ≤ 10 →
      s.adjusts = s.ctxAdjusts + s.truncAdjusts →
      (retries + 1 - s.parseAttempts) * 11 + (10 - s.adjusts) < fuel →
      (negotLoop oracle parseFn retries fuel s).outcome ≠ .fuelOut ∧
      (negotLoop oracle parseFn retries fuel s).final.parseAttempts ≤
        retries + 1 ∧
      (negotLoop oracle parseFn retries fuel s).final.ctxAdjusts +
        (negotLoop oracle parseFn retries fuel s).final.truncAdjusts ≤ 10 ∧
      (∀ le, (negotLoop oracle parseFn retries fuel s).outcome = .exhausted le →
        (negotLoop oracle parseFn retries fuel s).final.parseAttempts =
          retries + 1) := by
  intro fuel
  induction fuel with
  | zero => intro s _ _ _ hm; omega
  | succ fuel ih =>
      intro s hpa hadj hsum hm
      rw [negotLoop]
      cases hstep : negotStep oracle parseFn retries s with
      | next s2 =>
          obtain ⟨hg, hcase⟩ := negotStep_next_inv _ _ _ _ _ hstep
          rcases hcase with ⟨hp2, ha2, halt, hkind⟩ | ⟨hp2, ha2, hc2, ht2⟩
          · refine ih s2 (by omega) (by omega) (by rcases hkind with ⟨h1, h2⟩ | ⟨h1, h2⟩ <;> omega) (by omega)
          · refine ih s2 (by omega) (by omega) (by omega) (by omega)
      | done v s2 =>
          obtain ⟨hp2, hc2, ht2⟩ := negotStep_done_inv _ _ _ _ _ _ hstep
          refine ⟨by simp, by simp [hp2]; omega, by simp [hc2, ht2]; omega,
            by intro le hle; simp at hle⟩
      | raised m s2 =>
          obtain ⟨hp2, hc2, ht2⟩ := negotStep_raised_inv _ _ _ _ _ _ hstep
          refine ⟨by simp, by simp [hp2]; omega, by simp [hc2, ht2]; omega,
            by intro le hle; simp at hle⟩
      | exhausted le s2 =>
          obtain ⟨hs2, hg⟩ := negotStep_exhausted_inv _ _ _ _ _ _ hstep
          subst hs2
          refine ⟨by simp, by simpa using hpa, by simp; omega,
            by intro le2 _; simp; omega⟩


/-- C6: the negotiator's request loop terminates (its fuel bound is never
reached), `parse_attempts` — the count of attempts consumed by
strict-parse-and-repair failure — never exceeds `retries + 1` in total (at
most `retries` parse-failure retries beyond the first attempt), no matter how
the backend behaves and how many token-budget adjustments occur, and the
exhaustion `ValueError` is raised exactly when all attempts are consumed. -/
theorem negotiator_retry_bound {α : Type} (oracle : ℕ → String → BackendResp)
    (parseFn : String → Except String α) (prompt : String) (retries : ℕ) :
    (runAgentJson oracle parseFn prompt retries).outcome ≠ .fuelOut ∧
    (runAgentJson oracle parseFn prompt retries).final.parseAttempts ≤
      retries + 1 ∧
    (∀ le, (runAgentJson oracle parseFn prompt retries).outcome =
        .exhausted le →
      (runAgentJson oracle parseFn prompt retries).final.parseAttempts =
        retries + 1) := by
  have h := negotLoop_inv oracle parseFn retries (11 * (retries + 2))
    (initialNegotState prompt) (by simp [initialNegotState])
    (by simp [initialNegotState]) (by simp [initialNegotState])
    (by simp [initialNegotState]; omega)
  exact ⟨h.1, h.2.1, h.2.2.2⟩

/-- Witness for `negotiator_retry_bound`: a backend always replying output
that never parses; with `retries = 1` the run ends exhausted after consuming
both attempts. -/
theorem negotiator_retry_bound_witness :
    (runAgentJson (fun _ _ => BackendResp.reply "")
        (fun _ => (Except.error "bad" : Except String Unit)) "p" 1).outcome =
      .exhausted (some "bad") ∧
    (runAgentJson (fun _ _ => BackendResp.reply "")
        (fun _ => (Except.error "bad" : Except String Unit)) "p" 1).final.parseAttempts
      = 1 + 1 :=
  ⟨rfl, (negotiator_retry_bound (fun _ _ => BackendResp.reply "")
    (fun _ => (Except.error "bad" : Except String Unit)) "p" 1).2.2
    (some "bad") rfl⟩

/-- C7: a context-length error whose message reports a maximum context length
of 2048 and 1900 consumed input tokens makes the negotiator retry immediately
with a token budget of `max(16, 148 - 64) = 84 ≤ 148`, where
`148 = max(16, 2048 - 1900)` is the parsed safe remaining budget. -/
theorem negotiator_context_budget {α : Type}
    (oracle : ℕ → String → BackendResp)
    (parseFn : String → Except String α) (retries : ℕ) (s : NegotState)
    (msg : String)
    (h1 : scanLitDigits "maximum context length is ".data none msg.data =
      some 2048)
    (h2 : scanLitDigits "request has ".data (some " input tokens".data)
      msg.data = some 1900)
    (hpa : s.parseAttempts ≤ retries) (hadj : s.adjusts < 10)
    (horacle : oracle s.callIdx s.prompt = BackendResp.raise msg) :
    extractMaxTokensLimit msg = some 148 ∧
    ∃ s2, negotStep oracle parseFn retries s = .next s2 ∧
      s2.maxTokens = 84 ∧ s2.maxTokens ≤ 148 := by
  have hex : extractMaxTokensLimit msg = some 148 := by
    unfold extractMaxTokensLimit
    rw [h1, h2]
    norm_num
  refine ⟨hex, ?_⟩
  unfold negotStep
  rw [if_neg (by omega), horacle]
  simp only [hex, if_pos hadj]
  exact ⟨_, rfl, rfl, by norm_num⟩

/-- Witness for `negotiator_context_budget` at a concrete error message. -/
theorem negotiator_context_budget_witness :
    extractMaxTokensLimit
        "The maximum context length is 2048 tokens, but the request has 1900 input tokens."
      = some 148 ∧
    ∃ s2, negotStep (α := Unit)
        (fun _ _ => BackendResp.raise
          "The maximum context length is 2048 tokens, but the request has 1900 input tokens.")
        (fun _ => Except.error "e") 2 (initialNegotState "p") = .next s2 ∧
      s2.maxTokens = 84 ∧ s2.maxTokens ≤ 148 :=
  negotiator_context_budget
    (fun _ _ => BackendResp.raise
      "The maximum context length is 2048 tokens, but the request has 1900 input tokens.")
    (fun _ => Except.error "e") 2 (initialNegotState "p")
    "The maximum context length is 2048 tokens, but the request has 1900 input tokens."
    rfl rfl (by simp [initialNegotState]) (by simp [initialNegotState]) rfl

/-- C8 (amended): a context-length adjustment and a truncation budget
increase each consume no retry attempt while the adjustment counter is below
its cap, but the two kinds share a single counter capped at 10 adjustments in
total (they are not capped separately at 10 each). -/
theorem negotiator_adjustments_amended :
    (∀ (α : Type) (oracle : ℕ → String → BackendResp)
      (parseFn : String → Except String α) (prompt : String) (retries : ℕ),
      (runAgentJson oracle parseFn prompt retries).final.ctxAdjusts +
        (runAgentJson oracle parseFn prompt retries).final.truncAdjusts ≤ 10) ∧
    (∀ (α : Type) (oracle : ℕ → String → BackendResp)
      (parseFn : String → Except String α) (retries : ℕ) (s : NegotState)
      (msg : String) (a : ℕ),
      s.parseAttempts ≤ retries →
      oracle s.callIdx s.prompt = BackendResp.raise msg →
      extractMaxTokensLimit msg = some a → s.adjusts < 10 →
      ∃ s2, negotStep oracle parseFn retries s = .next s2 ∧
        s2.parseAttempts = s.parseAttempts ∧
        s2.ctxAdjusts = s.ctxAdjusts + 1 ∧
        s2.truncAdjusts = s.truncAdjusts) ∧
    (∀ (α : Type) (oracle : ℕ → String → BackendResp)
      (parseFn : String → Except String α) (retries : ℕ) (s : NegotState)
      (text e : String),
      s.parseAttempts ≤ retries →
      oracle s.callIdx s.prompt = BackendResp.reply text →
      parseFn text = .error e →
      pyInStr "Unclosed JSON object" e = true → s.adjusts < 10 →
      ∃ s2, negotStep oracle parseFn retries s = .next s2 ∧
        s2.parseAttempts = s.parseAttempts ∧
        s2.truncAdjusts = s.truncAdjusts + 1 ∧
        s2.ctxAdjusts = s.ctxAdjusts) := by
  refine ⟨?_, ?_, ?_⟩
  · intro α oracle parseFn prompt retries
    have h := negotLoop_inv oracle parseFn retries (11 * (retries + 2))
      (initialNegotState prompt) (by simp [initialNegotState])
      (by simp [initialNegotState]) (by simp [initialNegotState])
      (by simp [initialNegotState]; omega)
    exact h.2.2.1
  · intro α oracle parseFn retries s msg a hpa horacle hex hadj
    unfold negotStep
    rw [if_neg (by omega), horacle]
    simp only [hex, if_pos hadj]
    exact ⟨_, rfl, rfl, rfl, rfl⟩
  · intro α oracle parseFn retries s text e hpa horacle hparse htr hadj
    unfold negotStep
    rw [if_neg (by omega), horacle]
    simp only [hparse, if_pos (And.intro htr hadj)]
    exact ⟨_, rfl, rfl, rfl, rfl⟩

/-- Witness for `negotiator_adjustments_amended`: a concrete truncation step
consuming no attempt. -/
theorem negotiator_adjustments_amended_witness :
    (runAgentJson (fun _ _ => BackendResp.reply "x") parseBlockOnly "p"
      0).final.ctxAdjusts +
      (runAgentJson (fun _ _ => BackendResp.reply "x") parseBlockOnly "p"
        0).final.truncAdjusts ≤ 10 ∧
    ∃ s2, negotStep (fun _ _ => BackendResp.reply (String.mk [braceOpen]))
        parseBlockOnly 3 (initialNegotState "p") = .next s2 ∧
      s2.parseAttempts = (initialNegotState "p").parseAttempts ∧
      s2.truncAdjusts = (initialNegotState "p").truncAdjusts + 1 ∧
      s2.ctxAdjusts = (initialNegotState "p").ctxAdjusts :=
  ⟨negotiator_adjustments_amended.1 String
      (fun _ _ => BackendResp.reply "x") parseBlockOnly "p" 0,
    negotiator_adjustments_amended.2.2 String
      (fun _ _ => BackendResp.reply (String.mk [braceOpen])) parseBlockOnly 3
      (initialNegotState "p") (String.mk [braceOpen])
      "Unclosed JSON object in model output."
      (by simp [initialNegotState]) rfl rfl (by decide)
      (by simp [initialNegotState])⟩

/-- C8 counterexample: with `retries = 0`, five context-length adjustments
followed by truncated outputs exhaust the shared cap of 10 after only five
truncation increases; the next truncation signal then consumes the sole
retry attempt and the run ends exhausted — under separate per-kind caps of
10 it would have adjusted again instead.  Shown at a concrete oracle. -/
theorem negotiator_shared_cap_counterexample :
    (runAgentJson
        (fun i _ => if i < 5 then BackendResp.raise
          "The maximum context length is 2048 tokens, but the request has 1900 input tokens."
        else BackendResp.reply (String.mk [braceOpen]))
        parseBlockOnly "p" 0).final.ctxAdjusts = 5 ∧
    (runAgentJson
        (fun i _ => if i < 5 then BackendResp.raise
          "The maximum context length is 2048 tokens, but the request has 1900 input tokens."
        else BackendResp.reply (String.mk [braceOpen]))
        parseBlockOnly "p" 0).final.truncAdjusts = 5 ∧
    (runAgentJson
        (fun i _ => if i < 5 then BackendResp.raise
          "The maximum context length is 2048 tokens, but the request has 1900 input tokens."
        else BackendResp.reply (String.mk [braceOpen]))
        parseBlockOnly "p" 0).outcome =
      .exhausted (some "Unclosed JSON object in model output.") :=
  ⟨rfl, rfl, rfl⟩


/-! ### Orchestrator theorems -/

/-- C1 (amended): a run that reaches finalization writes final status
`completed` whether or not the accumulated error list is empty (only the
message differs; `completed_with_errors` is never written); a run in which
an exception escapes the processing body writes status `failed`. -/
theorem workflow_final_status_amended {L S D G P Q V : Type}
    (o : WfOracle L S D G P Q V) :
    (∀ r, wfBody o = .ok r →
      (processFullWorkflow o).status = "completed") ∧
    (∀ e r, wfBody o = .error (e, r) →
      (processFullWorkflow o).status = "failed") := by
  constructor
  · intro r h
    unfold processFullWorkflow
    rw [h]
  · intro e r h
    unfold processFullWorkflow
    rw [h]

/-- Witness for `workflow_final_status_amended`: a fully succeeding run and a
run whose skill-mapping stage raises. -/
theorem workflow_final_status_amended_witness :
    (processFullWorkflow unitOracleBase).status = "completed" ∧
    (processFullWorkflow
      { unitOracleBase with skillMap := (Except.error "x" : Except String Unit) }).status = "failed" :=
  ⟨(workflow_final_status_amended unitOracleBase).1 _ rfl,
   (workflow_final_status_amended
     { unitOracleBase with skillMap := (Except.error "x" : Except String Unit) }).2 "x" _ rfl⟩

/-- C1 counterexample: the auxiliary theory-question stage fails, so the run
reaches finalization with a nonempty error list — yet the persisted status is
`completed`, not `completed_with_errors`. -/
theorem workflow_completed_despite_errors :
    (processFullWorkflow
        { unitOracleBase with theoryQ := (Except.error "boom" : Except String Unit) }).result.errors =
      ["Theory question generation failed: boom"] ∧
    (processFullWorkflow
        { unitOracleBase with theoryQ := (Except.error "boom" : Except String Unit) }).status =
      "completed" ∧
    ¬ (processFullWorkflow
        { unitOracleBase with theoryQ := (Except.error "boom" : Except String Unit) }).status =
      "completed_with_errors" :=
  ⟨rfl, rfl, by decide⟩

/-- C2: a failure in any of the three shared stages is fatal — the job is
persisted as `failed`; in particular a skill-mapping failure leaves both
`teaching_packs` and `groups` empty in the persisted payload. -/
theorem workflow_shared_stage_fatal {L S D G P Q V : Type}
    (o : WfOracle L S D G P Q V) :
    (∀ e, o.lessonParse = .error e →
      (processFullWorkflow o).status = "failed") ∧
    (∀ e l lid, o.lessonParse = .ok l → o.createLesson = .ok lid →
      o.skillMap = .error e →
      (processFullWorkflow o).status = "failed" ∧
      (processFullWorkflow o).result.teachingPacks = [] ∧
      (processFullWorkflow o).result.groups = []) ∧
    (∀ e l lid ss, o.lessonParse = .ok l → o.createLesson = .ok lid →
      o.skillMap = .ok ss → o.diagBuild = .error e →
      (processFullWorkflow o).status = "failed") := by
  refine ⟨?_, ?_, ?_⟩
  · intro e he
    unfold processFullWorkflow wfBody
    rw [he]
  · intro e l lid h1 h2 h3
    unfold processFullWorkflow wfBody
    rw [h1, h2, h3]
    cases htq : o.theoryQ with
    | ok u => exact ⟨rfl, rfl, rfl⟩
    | error te => exact ⟨rfl, rfl, rfl⟩
  · intro e l lid ss h1 h2 h3 h4
    unfold processFullWorkflow wfBody
    rw [h1, h2, h3, h4]

/-- Witness for `workflow_shared_stage_fatal`: a concrete run whose
skill-mapping stage raises. -/
theorem workflow_shared_stage_fatal_witness :
    (processFullWorkflow
      { unitOracleBase with skillMap := (Except.error "llm down" : Except String Unit) }).status =
      "failed" ∧
    (processFullWorkflow
      { unitOracleBase with
        skillMap := (Except.error "llm down" : Except String Unit) }).result.teachingPacks = [] ∧
    (processFullWorkflow
      { unitOracleBase with skillMap := (Except.error "llm down" : Except String Unit) }).result.groups =
      [] :=
  (workflow_shared_stage_fatal
    { unitOracleBase with skillMap := (Except.error "llm down" : Except String Unit) }).2.1
    "llm down" () 1 rfl rfl rfl

/-- C3 (amended): a per-group video-drafting failure is caught and recorded
in that pack's own error list without aborting the job: the failing group's
pack carries the placeholder video, the succeeding group's pack is fully
populated (plan, quiz, slides, video), and the job completes — with status
`completed` (the job-level error list is not extended by a video-drafting
failure), not `completed_with_errors`. -/
theorem workflow_group_video_isolation {L S D G P Q V : Type}
    (o : WfOracle L S D G P Q V) (l : L) (ss : S) (d : D) (g1 g2 : G)
    (p1 p2 : P) (q1 q2 : Q) (v1 : V) (e f : String) (lid tp : ℕ)
    (h1 : o.lessonParse = .ok l) (h2 : o.createLesson = .ok lid)
    (h3 : o.theoryQ = .ok ()) (h4 : o.skillMap = .ok ss)
    (h5 : o.diagBuild = .ok d) (h6 : o.groupsStage = .ok [g1, g2])
    (h7 : o.planFor 0 = .ok p1) (h8 : o.quizFor 0 = .ok q1)
    (h9 : o.videoFor 0 = .ok v1) (h10 : o.planFor 1 = .ok p2)
    (h11 : o.quizFor 1 = .ok q2) (h12 : o.videoFor 1 = .error e)
    (h13 : o.exportResults = .ok f) (h14 : o.savePack = .ok tp) :
    (processFullWorkflow o).status = "completed" ∧
    (processFullWorkflow o).result.errors = [] ∧
    (processFullWorkflow o).result.teachingPacks =
      [{ group := g1, packPlan := some p1,
         quiz := some (QuizVal.fromModel q1), slides := some p1,
         video := some (VideoVal.drafted v1), videoUrl := none,
         videoThumbnail := none, errors := [], status := "preview",
         teachingPackId := some tp },
       { group := g2, packPlan := some p2,
         quiz := some (QuizVal.fromModel q2), slides := some p2,
         video := some VideoVal.placeholder, videoUrl := none,
         videoThumbnail := none,
         errors := ["Video drafting failed: " ++ e], status := "preview",
         teachingPackId := some tp }] := by
  unfold processFullWorkflow wfBody
  rw [h1, h2, h3, h4, h5, h6, h13, h14]
  simp only [processGroups, processGroup, h7, h8, h9, h10, h11, h12]
  refine ⟨?_, ?_, ?_⟩ <;> trivial

/-- Witness for `workflow_group_video_isolation` at a concrete oracle. -/
theorem workflow_group_video_isolation_witness :
    (processFullWorkflow
      { unitOracleBase with
        groupsStage := .ok [(), ()],
        videoFor := fun i =>
          if i = 1 then (Except.error "vid down" : Except String Unit)
          else .ok () }).status =
      "completed" ∧
    (processFullWorkflow
      { unitOracleBase with
        groupsStage := .ok [(), ()],
        videoFor := fun i =>
          if i = 1 then (Except.error "vid down" : Except String Unit)
          else .ok () }).result.errors = [] ∧
    (processFullWorkflow
      { unitOracleBase with
        groupsStage := .ok [(), ()],
        videoFor := fun i =>
          if i = 1 then (Except.error "vid down" : Except String Unit)
          else .ok () }).result.teachingPacks
      =
      [{ group := (), packPlan := some (),
         quiz := some (QuizVal.fromModel ()), slides := some (),
         video := some (VideoVal.drafted ()), videoUrl := none,
         videoThumbnail := none, errors := [], status := "preview",
         teachingPackId := some 7 },
       { group := (), packPlan := some (),
         quiz := some (QuizVal.fromModel ()), slides := some (),
         video := some VideoVal.placeholder, videoUrl := none,
         videoThumbnail := none,
         errors := ["Video drafting failed: " ++ "vid down"],
         status := "preview", teachingPackId := some 7 }] :=
  workflow_group_video_isolation
    { unitOracleBase with
      groupsStage := .ok [(), ()],
      videoFor := fun i =>
        if i = 1 then (Except.error "vid down" : Except String Unit)
        else .ok () }
    () () () () () () () () () () "vid down" "out.json" 1 7
    rfl rfl rfl rfl rfl rfl rfl rfl rfl rfl rfl rfl rfl rfl

/-- C3 counterexample: in the concrete failing-video run the persisted status
is `completed`, not `completed_with_errors` as the claim states. -/
theorem workflow_group_video_status_counterexample :
    (processFullWorkflow
      { unitOracleBase with
        groupsStage := .ok [(), ()],
        videoFor := fun i =>
          if i = 1 then (Except.error "vid down" : Except String Unit)
          else .ok ()
        }).result.teachingPacks.map PackData.video =
      [some (VideoVal.drafted ()), some VideoVal.placeholder] ∧
    (processFullWorkflow
      { unitOracleBase with
        groupsStage := .ok [(), ()],
        videoFor := fun i =>
          if i = 1 then (Except.error "vid down" : Except String Unit)
          else .ok () }).status =
      "completed" ∧
    ¬ (processFullWorkflow
      { unitOracleBase with
        groupsStage := .ok [(), ()],
        videoFor := fun i =>
          if i = 1 then (Except.error "vid down" : Except String Unit)
          else .ok () }).status =
      "completed_with_errors" :=
  ⟨rfl, rfl, by decide⟩


/-! ### Dict-operation lemmas -/

/-- Lookup after `objSet`. -/
theorem objGet_objSet (o : List (String × Jv)) (k k2 : String) (v : Jv) :
    objGet (objSet o k v) k2 = if k = k2 then some v else objGet o k2 := by
  induction o with
  | nil =>
      simp only [objSet, objGet]
  | cons e rest ih =>
      obtain ⟨k3, v3⟩ := e
      by_cases h3 : k3 = k
      · subst h3
        simp only [objSet, if_pos rfl, objGet]
        by_cases h2 : k3 = k2
        · subst h2; simp
        · simp [h2]
      · simp only [objSet, if_neg h3, objGet]
        by_cases h2 : k3 = k2
        · subst h2
          have hk : ¬ k = k3 := fun h => h3 h.symm
          simp [hk]
        · simp [h2, ih]

/-- Key test after `objSet`. -/
theorem objHasKey_objSet (o : List (String × Jv)) (k k2 : String) (v : Jv) :
    objHasKey (objSet o k v) k2 = if k = k2 then true else objHasKey o k2 := by
  unfold objHasKey
  rw [objGet_objSet]
  by_cases h : k = k2 <;> simp [h]

/-- Lookup after `objSetD`. -/
theorem objGet_objSetD (o : List (String × Jv)) (k k2 : String) (v : Jv) :
    objGet (objSetD o k v) k2 =
      if k = k2 then some ((objGet o k).getD v) else objGet o k2 := by
  unfold objSetD objHasKey
  by_cases hh : (objGet o k).isSome
  · rw [if_pos hh]
    by_cases h : k = k2
    · subst h
      obtain ⟨w, hw⟩ := Option.isSome_iff_exists.mp hh
      simp [hw]
    · simp [h]
  · rw [if_neg hh, objGet_objSet]
    by_cases h : k = k2
    · subst h
      have : objGet o k = none := Option.not_isSome_iff_eq_none.mp hh
      simp [this]
    · simp [h]

/-- Key test after `objSetD`. -/
theorem objHasKey_objSetD (o : List (String × Jv)) (k k2 : String) (v : Jv) :
    objHasKey (objSetD o k v) k2 =
      if k = k2 then true else objHasKey o k2 := by
  unfold objHasKey
  rw [objGet_objSetD]
  by_cases h : k = k2 <;> simp [h]

/-- `pyGet` after `objSet`. -/
theorem pyGet_objSet (o : List (String × Jv)) (k k2 : String) (v : Jv) :
    pyGet (objSet o k v) k2 = if k = k2 then v else pyGet o k2 := by
  unfold pyGet
  rw [objGet_objSet]
  by_cases h : k = k2 <;> simp [h]

/-- `pyGet` after `objSetD`. -/
theorem pyGet_objSetD (o : List (String × Jv)) (k k2 : String) (v : Jv) :
    pyGet (objSetD o k v) k2 =
      if k = k2 then (objGet o k).getD v else pyGet o k2 := by
  unfold pyGet
  rw [objGet_objSetD]
  by_cases h : k = k2 <;> simp [h]

/-- A present key makes `objSetD` the identity. -/
theorem objSetD_of_hasKey (o : List (String × Jv)) (k : String) (v : Jv)
    (h : objHasKey o k = true) : objSetD o k v = o := by
  unfold objSetD
  rw [if_pos h]

/-- Writing back the looked-up value is the identity. -/
theorem objSet_objGet_self (o : List (String × Jv)) (k : String) (v : Jv)
    (h : objGet o k = some v) : objSet o k v = o := by
  induction o with
  | nil => cases h
  | cons e rest ih =>
      obtain ⟨k3, v3⟩ := e
      by_cases h3 : k3 = k
      · subst h3
        simp [objGet] at h
        subst h
        simp [objSet]
      · simp only [objGet, if_neg h3] at h
        simp [objSet, h3, ih h]

/-- Lookup of the removed key. -/
theorem objGet_objRemove_self (o : List (String × Jv)) (k : String) :
    objGet (objRemove o k) k = none := by
  induction o with
  | nil => rfl
  | cons e rest ih =>
      obtain ⟨k3, v3⟩ := e
      by_cases h3 : k3 = k
      · simp [objRemove, h3, ih]
      · simp [objRemove, h3, objGet, ih]

/-- Lookup of other keys after a removal. -/
theorem objGet_objRemove_ne (o : List (String × Jv)) (k k2 : String)
    (h : ¬ k = k2) : objGet (objRemove o k) k2 = objGet o k2 := by
  induction o with
  | nil => rfl
  | cons e rest ih =>
      obtain ⟨k3, v3⟩ := e
      by_cases h3 : k3 = k
      · subst h3
        simp [objRemove, objGet, h, ih]
      · simp [objRemove, h3, objGet, ih]


/-- A key whose stored value is not `None` is present. -/
theorem hasKey_of_not_isNull (o : List (String × Jv)) (k : String)
    (h : isNull (pyGet o k) = false) : objHasKey o k = true := by
  unfold objHasKey
  cases hg : objGet o k with
  | none => unfold pyGet at h; rw [hg] at h; simp [isNull] at h
  | some w => simp

/-- Key test after `fillNull`. -/
theorem objHasKey_fillNull (o : List (String × Jv)) (k k2 : String) (d : Jv) :
    objHasKey (fillNull o k d) k2 = if k = k2 then true else objHasKey o k2 := by
  unfold fillNull
  by_cases hc : isNull (pyGet o k) = true
  · rw [if_pos hc, objHasKey_objSet]
  · rw [if_neg hc]
    by_cases h : k = k2
    · subst h
      simp [hasKey_of_not_isNull o k (Bool.not_eq_true _ ▸ by simpa using hc)]
    · simp [h]

/-- `pyGet` after `fillNull`. -/
theorem pyGet_fillNull (o : List (String × Jv)) (k k2 : String) (d : Jv) :
    pyGet (fillNull o k d) k2 =
      if k = k2 then (if isNull (pyGet o k) then d else pyGet o k)
      else pyGet o k2 := by
  unfold fillNull
  by_cases hc : isNull (pyGet o k) = true
  · rw [if_pos hc, pyGet_objSet]
    by_cases h : k = k2
    · subst h; simp [hc]
    · simp [h]
  · rw [if_neg hc]
    by_cases h : k = k2
    · subst h; simp [hc]
    · simp [h]

/-- `fixSkill` applied twice equals `fixSkill` applied once: every rule fills
a key only when missing (or `None`), and the first pass establishes all of
them. -/
theorem fixSkill_idem (sk : List (String × Jv)) :
    fixSkill (fixSkill sk) = fixSkill sk := by
  have h1 : objHasKey (fixSkill sk) "skill_id" = true := by
    simp [fixSkill, objHasKey_objSetD, objHasKey_fillNull]
  have h2 : isNull (pyGet (fixSkill sk) "name") = false := by
    simp only [fixSkill]
    simp [pyGet_objSetD, pyGet_fillNull]
    split
    · rfl
    next hc => simpa using hc
  have h2b : objHasKey (fixSkill sk) "name" = true :=
    hasKey_of_not_isNull _ _ h2
  have h3 : isNull (pyGet (fixSkill sk) "description") = false := by
    simp only [fixSkill]
    simp [pyGet_objSetD, pyGet_fillNull]
    split
    · rfl
    next hc => simpa using hc
  have h3b : objHasKey (fixSkill sk) "description" = true :=
    hasKey_of_not_isNull _ _ h3
  have h4 : objHasKey (fixSkill sk) "is_prerequisite" = true := by
    simp [fixSkill, objHasKey_objSetD, objHasKey_fillNull]
  have h5 : objHasKey (fixSkill sk) "weight" = true := by
    simp [fixSkill, objHasKey_objSetD, objHasKey_fillNull]
  conv_lhs => rw [fixSkill]
  rw [objSetD_of_hasKey _ _ _ h1, objSetD_of_hasKey _ _ _ h2b]
  rw [show fillNull (fixSkill sk) "name" (.s "Unnamed skill") = fixSkill sk by
    unfold fillNull; rw [h2]; simp]
  rw [objSetD_of_hasKey _ _ _ h3b]
  rw [show fillNull (fixSkill sk) "description" (.s "") = fixSkill sk by
    unfold fillNull; rw [h3]; simp]
  rw [objSetD_of_hasKey _ _ _ h4, objSetD_of_hasKey _ _ _ h5]


/-- `listFieldStep` when the field holds a list. -/
theorem listFieldStep_of_get_arr {o : List (String × Jv)} {k : String}
    {f : List Jv → List Jv} {items : List Jv}
    (h : objGet o k = some (.arr items)) :
    listFieldStep k f o = objSet o k (.arr (f items)) := by
  unfold listFieldStep
  rw [h]

/-- `listFieldStep` when the field is absent or not a list. -/
theorem listFieldStep_of_get_other {o : List (String × Jv)} {k : String}
    {f : List Jv → List Jv}
    (h : ∀ items, objGet o k ≠ some (.arr items)) :
    listFieldStep k f o = o := by
  unfold listFieldStep
  split
  next items heq => exact absurd heq (h items)
  next => rfl

/-- Lookup of another key through `listFieldStep`. -/
theorem objGet_listFieldStep_ne {o : List (String × Jv)} {k k2 : String}
    {f : List Jv → List Jv} (h : ¬ k = k2) :
    objGet (listFieldStep k f o) k2 = objGet o k2 := by
  unfold listFieldStep
  split
  · rw [objGet_objSet, if_neg h]
  · rfl

/-- `listFieldStep` preserves key presence everywhere. -/
theorem objHasKey_listFieldStep (o : List (String × Jv)) (k k2 : String)
    (f : List Jv → List Jv) :
    objHasKey (listFieldStep k f o) k2 = objHasKey o k2 := by
  unfold listFieldStep
  split
  next items heq =>
      rw [objHasKey_objSet]
      by_cases h : k = k2
      · subst h
        simp [objHasKey, heq]
      · rw [if_neg h]
  next => rfl

/-- `listFieldStep` is idempotent when its normalizer is. -/
theorem listFieldStep_idem {o : List (String × Jv)} {k : String}
    {f : List Jv → List Jv} (hf : ∀ l, f (f l) = f l) :
    listFieldStep k f (listFieldStep k f o) = listFieldStep k f o := by
  by_cases harr : ∃ items, objGet o k = some (.arr items)
  · obtain ⟨items, hg⟩ := harr
    rw [listFieldStep_of_get_arr hg]
    have hg2 : objGet (objSet o k (.arr (f items))) k = some (.arr (f items)) := by
      rw [objGet_objSet]
      simp
    rw [listFieldStep_of_get_arr hg2, hf]
    exact objSet_objGet_self _ _ _ hg2
  · have h := listFieldStep_of_get_other
      (o := o) (k := k) (f := f) (fun items hi => harr ⟨items, hi⟩)
    rw [h, h]

/-- `enumFixStep` when the current value is already valid. -/
theorem enumFixStep_of_ok {o : List (String × Jv)} {k : String}
    {okFn : Jv → Bool} {d : String} (h : okFn (pyGet o k) = true) :
    enumFixStep k okFn d o = o := by
  unfold enumFixStep
  rw [if_pos h]

/-- The value after `enumFixStep` is valid (given a valid default). -/
theorem enumFixStep_ok_out {o : List (String × Jv)} {k : String}
    {okFn : Jv → Bool} {d : String} (hd : okFn (.s d) = true) :
    okFn (pyGet (enumFixStep k okFn d o) k) = true := by
  unfold enumFixStep
  split
  next h => exact h
  next h => rw [pyGet_objSet]; simp [hd]

/-- Lookup of another key through `enumFixStep`. -/
theorem pyGet_enumFixStep_ne {o : List (String × Jv)} {k k2 : String}
    {okFn : Jv → Bool} {d : String} (h : ¬ k = k2) :
    pyGet (enumFixStep k okFn d o) k2 = pyGet o k2 := by
  unfold enumFixStep
  split
  · rfl
  · rw [pyGet_objSet, if_neg h]

/-- Key presence through `enumFixStep` of another key. -/
theorem objHasKey_enumFixStep_ne {o : List (String × Jv)} {k k2 : String}
    {okFn : Jv → Bool} {d : String} (h : ¬ k = k2) :
    objHasKey (enumFixStep k okFn d o) k2 = objHasKey o k2 := by
  unfold enumFixStep
  split
  · rfl
  · rw [objHasKey_objSet, if_neg h]

/-- Lookup through the copy-fold of `hoistInner`, for a key not in the
copied list. -/
theorem objGet_hoist_fold (inner : List (String × Jv)) (ko : String) :
    ∀ (keys : List String) (acc : List (String × Jv)), ko ∉ keys →
      objGet (keys.foldl
        (fun acc k =>
          if !objHasKey acc k && objHasKey inner k then
            objSet acc k (pyGet inner k)
          else acc) acc) ko = objGet acc ko := by
  intro keys
  induction keys with
  | nil => intro acc _; rfl
  | cons k rest ih =>
      intro acc hko
      have hne : ¬ k = ko := fun h => hko (h ▸ List.mem_cons_self k rest)
      have hko2 : ko ∉ rest := fun h => hko (List.mem_cons_of_mem k h)
      rw [List.foldl_cons, ih _ hko2]
      split
      · rw [objGet_objSet, if_neg hne]
      · rfl

/-- `hoistInner` when the outer key is absent or not a dict. -/
theorem hoistInner_of_not_obj {o : List (String × Jv)} {ko : String}
    {keys : List String} (h : ∀ flds, objGet o ko ≠ some (.obj flds)) :
    hoistInner o ko keys = o := by
  unfold hoistInner
  split
  next flds heq => exact absurd heq (h flds)
  next => rfl

/-- After an active hoist, the outer key is gone (when not re-copied). -/
theorem objGet_hoistInner_outer {o : List (String × Jv)} {ko : String}
    {keys : List String} (hko : ko ∉ keys) :
    ∀ flds, objGet (hoistInner o ko keys) ko ≠ some (.obj flds) := by
  intro flds
  unfold hoistInner
  split
  next inner heq =>
      rw [objGet_hoist_fold inner ko keys _ hko, objGet_objRemove_self]
      simp
  next h2 => exact h2 flds


/-- `LessonSummary` repair is idempotent. -/
theorem repairLessonSummaryObj_idem (o : List (String × Jv)) :
    repairLessonSummaryObj (repairLessonSummaryObj o) =
      repairLessonSummaryObj o := by
  have h1 : objHasKey (repairLessonSummaryObj o) "grade" = true := by
    simp [repairLessonSummaryObj, objHasKey_objSetD]
  have h2 : objHasKey (repairLessonSummaryObj o) "lesson_content" = true := by
    simp [repairLessonSummaryObj, objHasKey_objSetD]
  conv_lhs => rw [repairLessonSummaryObj]
  rw [objSetD_of_hasKey _ _ _ h1, objSetD_of_hasKey _ _ _ h2]

/-- The skills-list normalization is idempotent. -/
theorem normalizeSkills_idem (l : List Jv) :
    normalizeSkills (normalizeSkills l) = normalizeSkills l := by
  induction l with
  | nil => rfl
  | cons x rest ih => cases x <;> simp [normalizeSkills, ih, fixSkill_idem]

/-- `SkillSet` repair is idempotent. -/
theorem repairSkillSetObj_idem (o : List (String × Jv)) :
    repairSkillSetObj (repairSkillSetObj o) = repairSkillSetObj o := by
  unfold repairSkillSetObj
  have hdep : ∀ p, objGet (objSetD p "skill_dependencies" (Jv.obj []))
      "skills" = objGet p "skills" := by
    intro p
    rw [objGet_objSetD]
    simp
  have hstep : listFieldStep "skills" normalizeSkills
      (objSetD (listFieldStep "skills" normalizeSkills o)
        "skill_dependencies" (.obj [])) =
      objSetD (listFieldStep "skills" normalizeSkills o)
        "skill_dependencies" (.obj []) := by
    by_cases harr : ∃ items, objGet o "skills" = some (.arr items)
    · obtain ⟨items, hg⟩ := harr
      have hg2 : objGet (objSetD (listFieldStep "skills" normalizeSkills o)
          "skill_dependencies" (.obj [])) "skills" =
          some (.arr (normalizeSkills items)) := by
        rw [hdep, listFieldStep_of_get_arr hg, objGet_objSet]
        simp
      rw [listFieldStep_of_get_arr hg2, normalizeSkills_idem]
      exact objSet_objGet_self _ _ _ hg2
    · refine listFieldStep_of_get_other ?_
      intro items hi
      rw [hdep] at hi
      rw [listFieldStep_of_get_other
        (fun items2 hi2 => harr ⟨items2, hi2⟩)] at hi
      exact harr ⟨items, hi⟩
  rw [hstep]
  rw [objSetD_of_hasKey _ _ _ (by simp [objHasKey_objSetD])]

/-- A valid mastery level is not `None`. -/
theorem masteryOk_not_null (v : Jv) (h : masteryOk v = true) :
    isNull v = false := by
  cases v <;> simp [isNull] <;> simp [masteryOk] at h

/-- A valid learning pace is not `None`. -/
theorem paceOk_not_null (v : Jv) (h : paceOk v = true) :
    isNull v = false := by
  cases v <;> simp [isNull] <;> simp [paceOk] at h

/-- `GroupProfile` repair is idempotent. -/
theorem repairGroupProfileObj_idem (o : List (String × Jv)) :
    repairGroupProfileObj (repairGroupProfileObj o) =
      repairGroupProfileObj o := by
  have hm : masteryOk (pyGet (repairGroupProfileObj o) "mastery_level")
      = true := by
    unfold repairGroupProfileObj
    rw [pyGet_objSetD]
    rw [if_neg (by decide)]
    rw [pyGet_enumFixStep_ne (by decide), pyGet_objSetD, if_neg (by decide),
      pyGet_objSetD, if_neg (by decide)]
    exact enumFixStep_ok_out (by decide)
  have hp : paceOk (pyGet (repairGroupProfileObj o) "learning_pace")
      = true := by
    unfold repairGroupProfileObj
    rw [pyGet_objSetD, if_neg (by decide)]
    exact enumFixStep_ok_out (by decide)
  have hgid : objHasKey (repairGroupProfileObj o) "group_id" = true := by
    unfold repairGroupProfileObj
    rw [objHasKey_objSetD, if_neg (by decide),
      objHasKey_enumFixStep_ne (by decide),
      objHasKey_objSetD, if_neg (by decide),
      objHasKey_objSetD, if_neg (by decide),
      objHasKey_enumFixStep_ne (by decide),
      objHasKey_objSetD, if_neg (by decide),
      objHasKey_objSetD, if_pos rfl]
  have hml : objHasKey (repairGroupProfileObj o) "mastery_level" = true :=
    hasKey_of_not_isNull _ _ (masteryOk_not_null _ hm)
  have hsm : objHasKey (repairGroupProfileObj o) "skill_mastery" = true := by
    unfold repairGroupProfileObj
    rw [objHasKey_objSetD, if_neg (by decide),
      objHasKey_enumFixStep_ne (by decide),
      objHasKey_objSetD, if_neg (by decide),
      objHasKey_objSetD, if_pos rfl]
  have hlp : objHasKey (repairGroupProfileObj o) "learning_pace" = true :=
    hasKey_of_not_isNull _ _ (paceOk_not_null _ hp)
  have hst : objHasKey (repairGroupProfileObj o) "students" = true := by
    unfold repairGroupProfileObj
    rw [objHasKey_objSetD, if_pos rfl]
  conv_lhs => rw [repairGroupProfileObj]
  rw [objSetD_of_hasKey _ _ _ hgid, objSetD_of_hasKey _ _ _ hml,
    enumFixStep_of_ok hm, objSetD_of_hasKey _ _ _ hsm,
    objSetD_of_hasKey _ _ _ hlp, enumFixStep_of_ok hp,
    objSetD_of_hasKey _ _ _ hst]

/-- One slide's rules applied twice (at any positions) equal one
application. -/
theorem fixSlide_idem (i1 i2 : ℕ) (sl : List (String × Jv)) :
    fixSlide i2 (fixSlide i1 sl) = fixSlide i1 sl := by
  have h1 : objHasKey (fixSlide i1 sl) "slide_id" = true := by
    simp [fixSlide, objHasKey_objSetD]
  have h2 : objHasKey (fixSlide i1 sl) "title" = true := by
    simp [fixSlide, objHasKey_objSetD]
  have h3 : objHasKey (fixSlide i1 sl) "content" = true := by
    simp [fixSlide, objHasKey_objSetD]
  have h4 : objHasKey (fixSlide i1 sl) "visual_notes" = true := by
    simp [fixSlide, objHasKey_objSetD]
  have h5 : objHasKey (fixSlide i1 sl) "speaker_notes" = true := by
    simp [fixSlide, objHasKey_objSetD]
  conv_lhs => rw [fixSlide]
  rw [objSetD_of_hasKey _ _ _ h1, objSetD_of_hasKey _ _ _ h2,
    objSetD_of_hasKey _ _ _ h3, objSetD_of_hasKey _ _ _ h4,
    objSetD_of_hasKey _ _ _ h5]

/-- The slides-list normalization is idempotent (at any positions). -/
theorem normalizeSlides_idem (i1 i2 : ℕ) (l : List Jv) :
    normalizeSlides i2 (normalizeSlides i1 l) = normalizeSlides i1 l := by
  induction l generalizing i1 i2 with
  | nil => rfl
  | cons x rest ih => cases x <;> simp [normalizeSlides, ih, fixSlide_idem]

/-- `Slides` repair is idempotent. -/
theorem repairSlidesObj_idem (o : List (String × Jv)) :
    repairSlidesObj (repairSlidesObj o) = repairSlidesObj o := by
  unfold repairSlidesObj
  by_cases harr : ∃ items, objGet o "slides" = some (.arr items)
  · obtain ⟨items, hg⟩ := harr
    rw [listFieldStep_of_get_arr hg]
    have hg2 : objGet (objSet o "slides" (.arr (normalizeSlides 1 items)))
        "slides" = some (.arr (normalizeSlides 1 items)) := by
      rw [objGet_objSet]
      simp
    have hin : objSetD (objSet o "slides" (.arr (normalizeSlides 1 items)))
        "slides" (.arr []) =
        objSet o "slides" (.arr (normalizeSlides 1 items)) :=
      objSetD_of_hasKey _ _ _ (by unfold objHasKey; rw [hg2]; rfl)
    rw [hin]
    rw [listFieldStep_of_get_arr hg2, normalizeSlides_idem]
    rw [objSet_objGet_self _ _ _ hg2]
    rw [hin]
  · have hno : ∀ items, objGet o "slides" ≠ some (.arr items) :=
      fun items hi => harr ⟨items, hi⟩
    rw [listFieldStep_of_get_other hno]
    cases hg : objGet o "slides" with
    | some w =>
        have hk : objHasKey o "slides" = true := by
          unfold objHasKey; rw [hg]; rfl
        rw [objSetD_of_hasKey _ _ _ hk]
        rw [listFieldStep_of_get_other hno, objSetD_of_hasKey _ _ _ hk]
    | none =>
        have hsd : objSetD o "slides" (.arr []) =
            objSet o "slides" (.arr []) := by
          unfold objSetD objHasKey
          rw [hg]
          rfl
        rw [hsd]
        have hg2 : objGet (objSet o "slides" (.arr [])) "slides" =
            some (.arr []) := by
          rw [objGet_objSet]
          simp
        rw [listFieldStep_of_get_arr hg2]
        rw [show normalizeSlides 1 ([] : List Jv) = [] from rfl]
        rw [objSet_objGet_self _ _ _ hg2]
        rw [objSetD_of_hasKey _ _ _ (by unfold objHasKey; rw [hg2]; rfl)]


/-- One diagnostic question's rules applied twice equal one application. -/
theorem fixQuestion_idem (i1 i2 : ℕ) (q : List (String × Jv)) :
    fixQuestion i2 (fixQuestion i1 q) = fixQuestion i1 q := by
  have h1 : objHasKey (fixQuestion i1 q) "question_id" = true := by
    simp only [fixQuestion]
    split <;> simp [objHasKey_objSetD, objHasKey_objSet, objHasKey_fillNull]
  have h2 : objHasKey (fixQuestion i1 q) "question_text" = true := by
    simp only [fixQuestion]
    split <;> simp [objHasKey_objSetD, objHasKey_objSet, objHasKey_fillNull]
  have h3 : objHasKey (fixQuestion i1 q) "correct_answer" = true := by
    simp only [fixQuestion]
    split <;> simp [objHasKey_objSetD, objHasKey_objSet, objHasKey_fillNull]
  have h4 : isNull (pyGet (fixQuestion i1 q) "question_text") = false := by
    simp only [fixQuestion]
    split <;>
      · simp [pyGet_objSetD, pyGet_objSet, pyGet_fillNull]
        split
        · rfl
        next hc => simpa using hc
  have h5 : ∃ w, objGet (fixQuestion i1 q) "correct_answer" =
      some (.s w) := by
    simp only [fixQuestion]
    rw [objGet_objSetD, if_neg (by decide), objGet_objSetD,
      if_neg (by decide)]
    split
    · exact ⟨"", by rw [objGet_objSet, if_pos rfl]⟩
    · exact ⟨_, by rw [objGet_objSet, if_pos rfl]⟩
  have h6 : objHasKey (fixQuestion i1 q) "skill_id" = true := by
    simp only [fixQuestion]
    split <;> simp [objHasKey_objSetD, objHasKey_objSet, objHasKey_fillNull]
  have h7 : objHasKey (fixQuestion i1 q) "rationale" = true := by
    simp only [fixQuestion]
    split <;> simp [objHasKey_objSetD, objHasKey_objSet, objHasKey_fillNull]
  obtain ⟨w, hw⟩ := h5
  have hpw : pyGet (fixQuestion i1 q) "correct_answer" = .s w := by
    unfold pyGet
    rw [hw]
    rfl
  conv_lhs => rw [fixQuestion]
  rw [objSetD_of_hasKey _ _ _ h1, objSetD_of_hasKey _ _ _ h2,
    objSetD_of_hasKey _ _ _ h3]
  rw [show fillNull (fixQuestion i1 q) "question_text" (.s "") =
      fixQuestion i1 q by unfold fillNull; rw [h4]; simp]
  rw [hpw]
  rw [if_neg (by simp [isNull])]
  rw [show pyStr (Jv.s w) = w from rfl]
  rw [objSet_objGet_self _ _ _ hw]
  rw [objSetD_of_hasKey _ _ _ h6, objSetD_of_hasKey _ _ _ h7]

/-- The diagnostic questions normalization is idempotent (at any
positions). -/
theorem normalizeQuestions_idem (i1 i2 : ℕ) (l : List Jv) :
    normalizeQuestions i2 (normalizeQuestions i1 l) =
      normalizeQuestions i1 l := by
  induction l generalizing i1 i2 with
  | nil => rfl
  | cons x rest ih =>
      cases x <;> simp [normalizeQuestions, ih, fixQuestion_idem]

/-- `Diagnostic` repair is idempotent on its success branch. -/
theorem repairDiagnosticObj_idem (o r : List (String × Jv))
    (h : repairDiagnosticObj o = .ok r) :
    repairDiagnosticObj r = .ok r := by
  simp only [repairDiagnosticObj] at h
  set o1 := hoistInner o "diagnostic"
    ["questions", "total_questions", "skills_covered"] with ho1
  set o2 := listFieldStep "questions" (normalizeQuestions 1) o1 with ho2
  set o3 := objSetD o2 "questions" (.arr []) with ho3
  set o4 := objSetD o3 "skills_covered" (.arr []) with ho4
  have hshape : (∃ l, objGet o3 "questions" =
        some (.arr (normalizeQuestions 1 l))) ∨
      (∃ w, objGet o3 "questions" = some w ∧
        ∀ items, w ≠ Jv.arr items) := by
    cases hg1 : objGet o1 "questions" with
    | none =>
        left
        refine ⟨[], ?_⟩
        rw [ho3, ho2, listFieldStep_of_get_other
          (by intro items hcon; rw [hg1] at hcon; exact Option.noConfusion hcon)]
        rw [objGet_objSetD, if_pos rfl, hg1]
        rfl
    | some v =>
        by_cases hva : ∃ items, v = Jv.arr items
        · obtain ⟨items, rfl⟩ := hva
          left
          refine ⟨items, ?_⟩
          rw [ho3, ho2, listFieldStep_of_get_arr hg1]
          rw [objSetD_of_hasKey _ _ _ (by rw [objHasKey_objSet]; simp),
            objGet_objSet]
          simp
        · right
          refine ⟨v, ?_, fun items hcon => hva ⟨items, hcon⟩⟩
          rw [ho3, ho2, listFieldStep_of_get_other
            (by intro items hcon; rw [hg1] at hcon
                exact hva ⟨items, Option.some.inj hcon⟩)]
          rw [objSetD_of_hasKey _ _ _ (by unfold objHasKey; rw [hg1]; rfl), hg1]
  split at h
  next e he => exact Except.noConfusion h
  next n hlen =>
  have hr : r = objSetD o4 "total_questions" (.i n) :=
    (Except.ok.inj h).symm
  have hrq : objGet r "questions" = objGet o3 "questions" := by
    rw [hr, ho4]
    rw [objGet_objSetD, if_neg (by decide), objGet_objSetD,
      if_neg (by decide)]
  have hr_sc : objHasKey r "skills_covered" = true := by
    rw [hr, ho4]
    simp [objHasKey_objSetD]
  have hr_tq : objHasKey r "total_questions" = true := by
    rw [hr]
    simp [objHasKey_objSetD]
  have hr_diag : ∀ flds, objGet r "diagnostic" ≠ some (.obj flds) := by
    have hch : objGet r "diagnostic" = objGet o1 "diagnostic" := by
      rw [hr, ho4, ho3, ho2]
      rw [objGet_objSetD, if_neg (by decide), objGet_objSetD,
        if_neg (by decide), objGet_objSetD, if_neg (by decide),
        objGet_listFieldStep_ne (by decide)]
    intro flds hcon
    rw [hch, ho1] at hcon
    exact objGet_hoistInner_outer (by decide) flds hcon
  have hlen2 : pyLen ((objGet o4 "questions").getD (.arr [])) = .ok n := hlen
  have ho4q : objGet o4 "questions" = objGet o3 "questions" := by
    rw [ho4, objGet_objSetD, if_neg (by decide)]
  simp only [repairDiagnosticObj]
  rw [hoistInner_of_not_obj hr_diag]
  rcases hshape with ⟨l, hl⟩ | ⟨w, hw, hwna⟩
  · have hlr : objGet r "questions" = some (.arr (normalizeQuestions 1 l)) := by
      rw [hrq, hl]
    have hkq : objHasKey r "questions" = true := by
      unfold objHasKey
      rw [hlr]
      rfl
    rw [listFieldStep_of_get_arr hlr, normalizeQuestions_idem,
      objSet_objGet_self _ _ _ hlr]
    rw [objSetD_of_hasKey _ _ _ hkq]
    rw [objSetD_of_hasKey _ _ _ hr_sc]
    rw [hlr]
    simp only [Option.getD_some, pyLen]
    rw [objSetD_of_hasKey _ _ _ hr_tq]
  · have hwr : objGet r "questions" = some w := by
      rw [hrq, hw]
    have hkq : objHasKey r "questions" = true := by
      unfold objHasKey
      rw [hwr]
      rfl
    rw [listFieldStep_of_get_other
      (by intro items hcon; rw [hwr] at hcon
          exact hwna items (Option.some.inj hcon))]
    rw [objSetD_of_hasKey _ _ _ hkq]
    rw [objSetD_of_hasKey _ _ _ hr_sc]
    rw [ho4q, hw] at hlen2
    rw [hwr]
    simp only [Option.getD_some] at hlen2 ⊢
    rw [hlen2]
    show Except.ok (objSetD r "total_questions" (Jv.i n)) = Except.ok r
    rw [objSetD_of_hasKey _ _ _ hr_tq]


/-- Shape of the `k` field after a normalize-list-then-default pair: a
normalizer image or a non-list value. -/
theorem listThenD_shape (o : List (String × Jv)) (k : String)
    (f : List Jv → List Jv) (hfnil : f [] = []) :
    (∃ l, objGet (objSetD (listFieldStep k f o) k (.arr [])) k =
        some (.arr (f l))) ∨
      (∃ w, objGet (objSetD (listFieldStep k f o) k (.arr [])) k = some w ∧
        ∀ items, w ≠ Jv.arr items) := by
  cases hg : objGet o k with
  | none =>
      left
      refine ⟨[], ?_⟩
      rw [listFieldStep_of_get_other
        (by intro items hc; rw [hg] at hc; exact Option.noConfusion hc)]
      rw [objGet_objSetD, if_pos rfl, hg, hfnil]
      rfl
  | some v =>
      by_cases hva : ∃ items, v = Jv.arr items
      · obtain ⟨items, rfl⟩ := hva
        left
        refine ⟨items, ?_⟩
        rw [listFieldStep_of_get_arr hg]
        rw [objGet_objSetD, if_pos rfl, objGet_objSet]
        simp
      · right
        refine ⟨v, ?_, fun items hc => hva ⟨items, hc⟩⟩
        rw [listFieldStep_of_get_other
          (by intro items hc; rw [hg] at hc
              exact hva ⟨items, Option.some.inj hc⟩)]
        rw [objSetD_of_hasKey _ _ _ (by unfold objHasKey; rw [hg]; rfl), hg]

/-- A second normalize-list-then-default pass is the identity on values of
the shape produced by the first. -/
theorem listThenD_pass2 {r : List (String × Jv)} {k : String}
    {f : List Jv → List Jv} (hf : ∀ l, f (f l) = f l)
    (hsh : (∃ l, objGet r k = some (.arr (f l))) ∨
      (∃ w, objGet r k = some w ∧ ∀ items, w ≠ Jv.arr items)) :
    objSetD (listFieldStep k f r) k (.arr []) = r := by
  rcases hsh with ⟨l, hl⟩ | ⟨w, hw, hna⟩
  · have hkk : objHasKey r k = true := by
      unfold objHasKey
      rw [hl]
      rfl
    rw [listFieldStep_of_get_arr hl, hf, objSet_objGet_self _ _ _ hl,
      objSetD_of_hasKey _ _ _ hkk]
  · have hkk : objHasKey r k = true := by
      unfold objHasKey
      rw [hw]
      rfl
    rw [listFieldStep_of_get_other
      (by intro items hc; rw [hw] at hc
          exact hna items (Option.some.inj hc)),
      objSetD_of_hasKey _ _ _ hkk]

/-- Key membership through the difficulty normalization. -/
theorem objHasKey_normDifficulty (o : List (String × Jv)) (k : String) :
    objHasKey (normDifficulty o) k =
      if "difficulty" = k then true else objHasKey o k := by
  simp only [normDifficulty]
  rw [objHasKey_objSet]

/-- The difficulty normalization always stores one of the three admitted
literals. -/
theorem normDifficulty_out (o : List (String × Jv)) :
    ∃ w, objGet (normDifficulty o) "difficulty" = some (.s w) ∧
      (w = "easy" ∨ w = "medium" ∨ w = "hard") := by
  simp only [normDifficulty]
  refine ⟨_, by rw [objGet_objSet, if_pos rfl], ?_⟩
  split
  · decide
  · split
    next hc => exact hc
    next => right; left; rfl

/-- The difficulty normalization is the identity when the field already
holds an admitted literal. -/
theorem normDifficulty_of_lit (o : List (String × Jv)) (w : String)
    (hg : objGet o "difficulty" = some (.s w))
    (hw : w = "easy" ∨ w = "medium" ∨ w = "hard") :
    normDifficulty o = o := by
  have hpg : pyGet o "difficulty" = .s w := by
    unfold pyGet
    rw [hg]
    rfl
  rcases hw with rfl | rfl | rfl <;>
  · simp only [normDifficulty, hpg]
    refine Eq.trans ?_ (objSet_objGet_self o "difficulty" _ hg)
    congr 2

/-- The difficulty normalization is idempotent. -/
theorem normDifficulty_idem (o : List (String × Jv)) :
    normDifficulty (normDifficulty o) = normDifficulty o := by
  obtain ⟨w, hg, hw⟩ := normDifficulty_out o
  exact normDifficulty_of_lit _ _ hg hw

/-- One quiz question's rules applied twice equal one application. -/
theorem fixQuizQ_idem (i1 i2 : ℕ) (q : List (String × Jv)) :
    fixQuizQ i2 (fixQuizQ i1 q) = fixQuizQ i1 q := by
  have h1 : objHasKey (fixQuizQ i1 q) "question_id" = true := by
    simp [fixQuizQ, objHasKey_objSetD, objHasKey_normDifficulty]
  have h2 : objHasKey (fixQuizQ i1 q) "question_text" = true := by
    simp [fixQuizQ, objHasKey_objSetD, objHasKey_normDifficulty]
  have h3 : objHasKey (fixQuizQ i1 q) "correct_answer" = true := by
    simp [fixQuizQ, objHasKey_objSetD, objHasKey_normDifficulty]
  have hdiff : ∃ w, objGet (fixQuizQ i1 q) "difficulty" = some (.s w) ∧
      (w = "easy" ∨ w = "medium" ∨ w = "hard") := by
    simp only [fixQuizQ]
    rw [objGet_objSetD, if_neg (by decide), objGet_objSetD,
      if_neg (by decide), objGet_objSetD, if_neg (by decide)]
    exact normDifficulty_out _
  have h5 : objHasKey (fixQuizQ i1 q) "skill_id" = true := by
    simp [fixQuizQ, objHasKey_objSetD, objHasKey_normDifficulty]
  have h6 : objHasKey (fixQuizQ i1 q) "hint" = true := by
    simp [fixQuizQ, objHasKey_objSetD, objHasKey_normDifficulty]
  have h7 : objHasKey (fixQuizQ i1 q) "explanation" = true := by
    simp [fixQuizQ, objHasKey_objSetD, objHasKey_normDifficulty]
  obtain ⟨w, hgw, hww⟩ := hdiff
  conv_lhs => rw [fixQuizQ]
  rw [objSetD_of_hasKey _ _ _ h1, objSetD_of_hasKey _ _ _ h2,
    objSetD_of_hasKey _ _ _ h3]
  rw [normDifficulty_of_lit _ _ hgw hww]
  rw [objSetD_of_hasKey _ _ _ h5, objSetD_of_hasKey _ _ _ h6,
    objSetD_of_hasKey _ _ _ h7]

/-- The quiz-questions normalization is idempotent (at any positions). -/
theorem normalizeQuizQs_idem (i1 i2 : ℕ) (l : List Jv) :
    normalizeQuizQs i2 (normalizeQuizQs i1 l) = normalizeQuizQs i1 l := by
  induction l generalizing i1 i2 with
  | nil => rfl
  | cons x rest ih => cases x <;> simp [normalizeQuizQs, ih, fixQuizQ_idem]

/-- The practice-exercises normalization is idempotent. -/
theorem normalizeExs_idem (l : List Jv) :
    normalizeExs (normalizeExs l) = normalizeExs l := by
  induction l with
  | nil => rfl
  | cons x rest ih => cases x <;> simp [normalizeExs, ih, normDifficulty_idem]

/-- `Quiz` repair is idempotent on its success branch. -/
theorem repairQuizObj_idem (o r : List (String × Jv))
    (h : repairQuizObj o = .ok r) : repairQuizObj r = .ok r := by
  simp only [repairQuizObj] at h
  set o2 := objSetD (listFieldStep "questions" (normalizeQuizQs 1) o)
    "questions" (.arr []) with ho2
  set o4 := objSetD (listFieldStep "practice_exercises" normalizeExs o2)
    "practice_exercises" (.arr []) with ho4
  set o5 := objSetD o4 "answer_key" (.obj []) with ho5
  have hshQ := listThenD_shape o "questions" (normalizeQuizQs 1) rfl
  have hshP := listThenD_shape o2 "practice_exercises" normalizeExs rfl
  rw [← ho2] at hshQ
  rw [← ho4] at hshP
  split at h
  next e he => exact Except.noConfusion h
  next n hlen =>
  have hr : r = objSetD o5 "total_questions" (.i n) :=
    (Except.ok.inj h).symm
  have hrq : objGet r "questions" = objGet o2 "questions" := by
    rw [hr, ho5, ho4]
    rw [objGet_objSetD, if_neg (by decide), objGet_objSetD,
      if_neg (by decide), objGet_objSetD, if_neg (by decide),
      objGet_listFieldStep_ne (by decide)]
  have hrp : objGet r "practice_exercises" = objGet o4 "practice_exercises" := by
    rw [hr, ho5]
    rw [objGet_objSetD, if_neg (by decide), objGet_objSetD,
      if_neg (by decide)]
  have hr_ak : objHasKey r "answer_key" = true := by
    rw [hr, ho5]
    simp [objHasKey_objSetD]
  have hr_tq : objHasKey r "total_questions" = true := by
    rw [hr]
    simp [objHasKey_objSetD]
  have hshQr : (∃ l, objGet r "questions" =
        some (.arr (normalizeQuizQs 1 l))) ∨
      (∃ w, objGet r "questions" = some w ∧ ∀ items, w ≠ Jv.arr items) := by
    rw [hrq]
    exact hshQ
  have hshPr : (∃ l, objGet r "practice_exercises" =
        some (.arr (normalizeExs l))) ∨
      (∃ w, objGet r "practice_exercises" = some w ∧
        ∀ items, w ≠ Jv.arr items) := by
    rw [hrp]
    exact hshP
  have hlenr : pyLen ((objGet r "questions").getD (.arr [])) =
      Except.ok n := by
    rw [hrq]
    have h5q : objGet o5 "questions" = objGet o2 "questions" := by
      rw [ho5, ho4]
      rw [objGet_objSetD, if_neg (by decide), objGet_objSetD,
        if_neg (by decide), objGet_listFieldStep_ne (by decide)]
    rw [← h5q]
    exact hlen
  simp only [repairQuizObj]
  rw [listThenD_pass2 (fun l => normalizeQuizQs_idem 1 1 l) hshQr]
  rw [listThenD_pass2 (fun l => normalizeExs_idem l) hshPr]
  rw [objSetD_of_hasKey _ _ _ hr_ak]
  rw [hlenr]
  show Except.ok (objSetD r "total_questions" (Jv.i n)) = Except.ok r
  rw [objSetD_of_hasKey _ _ _ hr_tq]


/-- The slide-outline item rules leave `slide_number` a string and
`key_points` a non-list, non-`None` value. -/
theorem fixOutlineItem_out (idx : ℕ) (it : List (String × Jv)) :
    (∃ w, objGet (fixOutlineItem idx it) "slide_number" = some (.s w)) ∧
      (∃ w, objGet (fixOutlineItem idx it) "key_points" = some w ∧
        (∀ l, w ≠ Jv.arr l) ∧ w ≠ Jv.null) := by
  simp only [fixOutlineItem]
  split
  next l heq =>
    refine ⟨?_, _, by rw [objGet_objSet, if_pos rfl],
      fun l2 hc => Jv.noConfusion hc, fun hc => Jv.noConfusion hc⟩
    rw [objGet_objSet, if_neg (by decide)]
    split
    · exact ⟨_, by rw [objGet_objSet, if_pos rfl]⟩
    · exact ⟨_, by rw [objGet_objSet, if_pos rfl]⟩
  next heq =>
    refine ⟨?_, _, by rw [objGet_objSet, if_pos rfl],
      fun l2 hc => Jv.noConfusion hc, fun hc => Jv.noConfusion hc⟩
    rw [objGet_objSet, if_neg (by decide)]
    split
    · exact ⟨_, by rw [objGet_objSet, if_pos rfl]⟩
    · exact ⟨_, by rw [objGet_objSet, if_pos rfl]⟩
  next heq =>
    refine ⟨?_, _, by rw [objGet_objSet, if_pos rfl],
      fun l2 hc => Jv.noConfusion hc, fun hc => Jv.noConfusion hc⟩
    rw [objGet_objSet, if_neg (by decide)]
    split
    · exact ⟨_, by rw [objGet_objSet, if_pos rfl]⟩
    · exact ⟨_, by rw [objGet_objSet, if_pos rfl]⟩
  next hne1 hne2 hne3 =>
    constructor
    · split
      · exact ⟨_, by rw [objGet_objSet, if_pos rfl]⟩
      · exact ⟨_, by rw [objGet_objSet, if_pos rfl]⟩
    · obtain ⟨v, hv⟩ := Option.ne_none_iff_exists'.mp hne3
      refine ⟨v, hv, fun l hc => hne1 l (hc ▸ hv), fun hc => hne2 (hc ▸ hv)⟩

/-- One slide-outline item's rules applied twice (at any positions) equal
one application. -/
theorem fixOutlineItem_idem (i1 i2 : ℕ) (it : List (String × Jv)) :
    fixOutlineItem i2 (fixOutlineItem i1 it) = fixOutlineItem i1 it := by
  obtain ⟨⟨w, hsn⟩, ⟨w2, hkp, hkpa, hkpn⟩⟩ := fixOutlineItem_out i1 it
  have hpsn : pyGet (fixOutlineItem i1 it) "slide_number" = .s w := by
    unfold pyGet
    rw [hsn]
    rfl
  have hhk : objHasKey (fixOutlineItem i1 it) "slide_number" = true := by
    unfold objHasKey
    rw [hsn]
    rfl
  conv_lhs => rw [fixOutlineItem]
  rw [if_pos hhk, hpsn, show pyStr (Jv.s w) = w from rfl,
    objSet_objGet_self _ _ _ hsn]
  cases w2 <;> first
    | exact absurd rfl (hkpa _)
    | exact absurd rfl hkpn
    | rw [hkp]

/-- The slide-outline normalization is idempotent (at any positions). -/
theorem normalizeOutline_idem (i1 i2 : ℕ) (l : List Jv) :
    normalizeOutline i2 (normalizeOutline i1 l) = normalizeOutline i1 l := by
  induction l generalizing i1 i2 with
  | nil => rfl
  | cons x rest ih =>
      cases x <;> simp [normalizeOutline, ih, fixOutlineItem_idem]

/-- `fixQb` is the fold of the named per-key step. -/
theorem fixQb_eq_foldl (qb : List (String × Jv)) :
    fixQb qb = qbKeys.foldl qbStep qb := rfl

/-- The quiz-blueprint step leaves other keys untouched. -/
theorem qbStep_other {acc : List (String × Jv)} {k k2 : String}
    (h : ¬ k = k2) : objGet (qbStep acc k) k2 = objGet acc k2 := by
  unfold qbStep
  split
  · split <;> rw [objGet_objSet, if_neg h]
  · rfl

/-- After the quiz-blueprint step, its own key holds a string if present. -/
theorem qbStep_self_str (acc : List (String × Jv)) (k : String) :
    ∀ v, objGet (qbStep acc k) k = some v → ∃ w, v = Jv.s w := by
  intro v hv
  unfold qbStep at hv
  split at hv
  · split at hv <;>
      · rw [objGet_objSet, if_pos rfl] at hv
        exact ⟨_, (Option.some.inj hv).symm⟩
  · next hk => exact absurd (by unfold objHasKey; rw [hv]; rfl) hk

/-- The quiz-blueprint step is the identity when its key is absent or
already a string. -/
theorem qbStep_id_of_str {acc : List (String × Jv)} {k : String}
    (h : ∀ v, objGet acc k = some v → ∃ w, v = Jv.s w) :
    qbStep acc k = acc := by
  unfold qbStep
  split
  · next hk =>
    have hex : ∃ v, objGet acc k = some v := by
      unfold objHasKey at hk
      cases hg : objGet acc k with
      | none => rw [hg] at hk; simp at hk
      | some v => exact ⟨v, rfl⟩
    obtain ⟨v, hv⟩ := hex
    obtain ⟨w, rfl⟩ := h v hv
    have hpg : pyGet acc k = Jv.s w := by
      unfold pyGet
      rw [hv]
      rfl
    rw [hpg]
    show objSet acc k (Jv.s (pyStr (Jv.s w))) = acc
    rw [show pyStr (Jv.s w) = w from rfl]
    exact objSet_objGet_self _ _ _ hv
  · rfl

/-- The string-if-present property of a key survives the rest of the
quiz-blueprint fold. -/
theorem foldl_qbStep_pres {k : String} :
    ∀ (l : List String) (acc : List (String × Jv)),
      (∀ v, objGet acc k = some v → ∃ w, v = Jv.s w) →
      ∀ v, objGet (l.foldl qbStep acc) k = some v → ∃ w, v = Jv.s w := by
  intro l
  induction l with
  | nil => intro acc h; exact h
  | cons k0 rest ih =>
      intro acc h
      simp only [List.foldl_cons]
      apply ih
      by_cases hk : k0 = k
      · subst hk
        exact qbStep_self_str acc k0
      · intro v hv
        rw [qbStep_other hk] at hv
        exact h v hv

/-- Every key processed by the quiz-blueprint fold ends up a string if
present. -/
theorem foldl_qbStep_out :
    ∀ (l : List String) (acc : List (String × Jv)) (k : String), k ∈ l →
      ∀ v, objGet (l.foldl qbStep acc) k = some v → ∃ w, v = Jv.s w := by
  intro l
  induction l with
  | nil => intro acc k hk; cases hk
  | cons k0 rest ih =>
      intro acc k hk
      simp only [List.foldl_cons]
      rcases List.mem_cons.mp hk with rfl | hmem
      · exact foldl_qbStep_pres rest (qbStep acc k) (qbStep_self_str acc k)
      · exact ih (qbStep acc k0) k hmem

/-- A fold whose step fixes the accumulator is the identity. -/
theorem foldl_id_of {α β : Type} :
    ∀ (l : List α) (f : β → α → β) (a : β),
      (∀ k ∈ l, f a k = a) → l.foldl f a = a := by
  intro l
  induction l with
  | nil => intro f a h; rfl
  | cons x rest ih =>
      intro f a h
      simp only [List.foldl_cons, h x (List.mem_cons_self x rest)]
      exact ih f a fun k hk => h k (List.mem_cons_of_mem x hk)

/-- One quiz-blueprint dict's rules applied twice equal one application. -/
theorem fixQb_idem (qb : List (String × Jv)) :
    fixQb (fixQb qb) = fixQb qb := by
  rw [fixQb_eq_foldl, fixQb_eq_foldl]
  apply foldl_id_of
  intro k hk
  apply qbStep_id_of_str
  exact foldl_qbStep_out qbKeys qb k hk

/-- The quiz-blueprint list normalization is idempotent. -/
theorem normalizeQb_idem (l : List Jv) :
    normalizeQb (normalizeQb l) = normalizeQb l := by
  induction l with
  | nil => rfl
  | cons x rest ih => cases x <;> simp [normalizeQb, ih, fixQb_idem]


/-- A string value is not `None`. -/
theorem pyIsStr_not_null (v : Jv) (h : pyIsStr v = true) :
    isNull v = false := by
  cases v <;> simp [isNull] <;> simp [pyIsStr] at h

/-- The estimated-time coercion leaves other keys untouched. -/
theorem objGet_estimatedTimeStep_ne {o : List (String × Jv)} {k : String}
    (h : ¬ "estimated_time" = k) :
    objGet (estimatedTimeStep o) k = objGet o k := by
  unfold estimatedTimeStep
  split
  · rw [objGet_objSet, if_neg h]
  · split
    · rfl
    · rw [objGet_objSet, if_neg h]

/-- After the estimated-time coercion the field holds a Python `int`. -/
theorem pyIsInt_estimatedTimeStep (o : List (String × Jv)) :
    pyIsInt (pyGet (estimatedTimeStep o) "estimated_time") = true := by
  cases hv : pyGet o "estimated_time" with
  | obj flds =>
      rw [show estimatedTimeStep o = objSet o "estimated_time"
          (.i (sumIntDigitish (flds.map Prod.snd))) from by
        unfold estimatedTimeStep; rw [hv]]
      rw [pyGet_objSet, if_pos rfl]
      rfl
  | i n =>
      rw [show estimatedTimeStep o = o from by
        unfold estimatedTimeStep; rw [hv]; rfl]
      rw [hv]
      rfl
  | b v0 =>
      rw [show estimatedTimeStep o = o from by
        unfold estimatedTimeStep; rw [hv]; rfl]
      rw [hv]
      rfl
  | null =>
      obtain ⟨m, hm⟩ : ∃ m, estimatedTimeStep o =
          objSet o "estimated_time" (.i m) :=
        ⟨_, by unfold estimatedTimeStep; rw [hv]; rfl⟩
      rw [hm, pyGet_objSet, if_pos rfl]
      rfl
  | f v0 =>
      obtain ⟨m, hm⟩ : ∃ m, estimatedTimeStep o =
          objSet o "estimated_time" (.i m) :=
        ⟨_, by unfold estimatedTimeStep; rw [hv]; rfl⟩
      rw [hm, pyGet_objSet, if_pos rfl]
      rfl
  | s v0 =>
      obtain ⟨m, hm⟩ : ∃ m, estimatedTimeStep o =
          objSet o "estimated_time" (.i m) :=
        ⟨_, by unfold estimatedTimeStep; rw [hv]; rfl⟩
      rw [hm, pyGet_objSet, if_pos rfl]
      rfl
  | arr l =>
      obtain ⟨m, hm⟩ : ∃ m, estimatedTimeStep o =
          objSet o "estimated_time" (.i m) :=
        ⟨_, by unfold estimatedTimeStep; rw [hv]; rfl⟩
      rw [hm, pyGet_objSet, if_pos rfl]
      rfl

/-- The estimated-time coercion is the identity on a Python `int`. -/
theorem estimatedTimeStep_id_of_int {o : List (String × Jv)}
    (h : pyIsInt (pyGet o "estimated_time") = true) :
    estimatedTimeStep o = o := by
  cases hv : pyGet o "estimated_time" with
  | i n => unfold estimatedTimeStep; rw [hv]; rfl
  | b v0 => unfold estimatedTimeStep; rw [hv]; rfl
  | obj flds => rw [hv] at h; simp [pyIsInt] at h
  | null => rw [hv] at h; simp [pyIsInt] at h
  | f v0 => rw [hv] at h; simp [pyIsInt] at h
  | s v0 => rw [hv] at h; simp [pyIsInt] at h
  | arr l => rw [hv] at h; simp [pyIsInt] at h

/-- The differentiation-strategy step leaves other keys untouched. -/
theorem objGet_diffStrategyStep_ne {o : List (String × Jv)} {k : String}
    (h : ¬ "differentiation_strategy" = k) :
    objGet (diffStrategyStep o) k = objGet o k := by
  unfold diffStrategyStep
  split
  · rfl
  · rw [objGet_objSet, if_neg h]

/-- After the differentiation-strategy step the field holds a string. -/
theorem pyIsStr_diffStrategyStep (o : List (String × Jv)) :
    pyIsStr (pyGet (diffStrategyStep o) "differentiation_strategy")
      = true := by
  unfold diffStrategyStep
  split
  next hs => exact hs
  next => rw [pyGet_objSet, if_pos rfl]; rfl

/-- The differentiation-strategy step is the identity on a string. -/
theorem diffStrategyStep_id_of_str {o : List (String × Jv)}
    (h : pyIsStr (pyGet o "differentiation_strategy") = true) :
    diffStrategyStep o = o := by
  unfold diffStrategyStep
  rw [if_pos h]

/-- The quiz-blueprint coercion leaves other keys untouched. -/
theorem objGet_qbCoerceStep_ne {o : List (String × Jv)} {k : String}
    (h : ¬ "quiz_blueprint" = k) :
    objGet (qbCoerceStep o) k = objGet o k := by
  unfold qbCoerceStep
  split <;> first | rfl | rw [objGet_objSet, if_neg h]

/-- Shape of `quiz_blueprint` after coercion plus normalization: a
normalizer image or a scalar. -/
theorem qbcoerce_shape (x : List (String × Jv)) :
    (∃ l, objGet (listFieldStep "quiz_blueprint" normalizeQb
        (qbCoerceStep x)) "quiz_blueprint" = some (.arr (normalizeQb l))) ∨
      (∃ w, objGet (listFieldStep "quiz_blueprint" normalizeQb
        (qbCoerceStep x)) "quiz_blueprint" = some w ∧
        (∀ l, w ≠ Jv.arr l) ∧ (∀ f2, w ≠ Jv.obj f2) ∧ w ≠ Jv.null) := by
  cases hg : objGet x "quiz_blueprint" with
  | none =>
      left
      refine ⟨[], ?_⟩
      have hco : qbCoerceStep x = objSet x "quiz_blueprint" (.arr []) := by
        unfold qbCoerceStep
        rw [hg]
      have hg2 : objGet (qbCoerceStep x) "quiz_blueprint" =
          some (.arr []) := by
        rw [hco, objGet_objSet, if_pos rfl]
      rw [listFieldStep_of_get_arr hg2, objGet_objSet, if_pos rfl]
  | some v =>
    cases v with
    | obj flds =>
        left
        refine ⟨[Jv.obj flds], ?_⟩
        have hco : qbCoerceStep x =
            objSet x "quiz_blueprint" (.arr [.obj flds]) := by
          unfold qbCoerceStep
          rw [hg]
        have hg2 : objGet (qbCoerceStep x) "quiz_blueprint" =
            some (.arr [.obj flds]) := by
          rw [hco, objGet_objSet, if_pos rfl]
        rw [listFieldStep_of_get_arr hg2, objGet_objSet, if_pos rfl]
    | null =>
        left
        refine ⟨[], ?_⟩
        have hco : qbCoerceStep x = objSet x "quiz_blueprint" (.arr []) := by
          unfold qbCoerceStep
          rw [hg]
        have hg2 : objGet (qbCoerceStep x) "quiz_blueprint" =
            some (.arr []) := by
          rw [hco, objGet_objSet, if_pos rfl]
        rw [listFieldStep_of_get_arr hg2, objGet_objSet, if_pos rfl]
    | arr items =>
        left
        refine ⟨items, ?_⟩
        have hco : qbCoerceStep x = x := by
          unfold qbCoerceStep
          rw [hg]
        rw [hco, listFieldStep_of_get_arr hg, objGet_objSet, if_pos rfl]
    | b v0 =>
        right
        have hco : qbCoerceStep x = x := by
          unfold qbCoerceStep
          rw [hg]
        rw [hco, listFieldStep_of_get_other
          (by intro items hc; rw [hg] at hc
              exact Jv.noConfusion (Option.some.inj hc))]
        exact ⟨_, hg, fun l hc => Jv.noConfusion hc,
          fun f2 hc => Jv.noConfusion hc, fun hc => Jv.noConfusion hc⟩
    | i v0 =>
        right
        have hco : qbCoerceStep x = x := by
          unfold qbCoerceStep
          rw [hg]
        rw [hco, listFieldStep_of_get_other
          (by intro items hc; rw [hg] at hc
              exact Jv.noConfusion (Option.some.inj hc))]
        exact ⟨_, hg, fun l hc => Jv.noConfusion hc,
          fun f2 hc => Jv.noConfusion hc, fun hc => Jv.noConfusion hc⟩
    | f v0 =>
        right
        have hco : qbCoerceStep x = x := by
          unfold qbCoerceStep
          rw [hg]
        rw [hco, listFieldStep_of_get_other
          (by intro items hc; rw [hg] at hc
              exact Jv.noConfusion (Option.some.inj hc))]
        exact ⟨_, hg, fun l hc => Jv.noConfusion hc,
          fun f2 hc => Jv.noConfusion hc, fun hc => Jv.noConfusion hc⟩
    | s v0 =>
        right
        have hco : qbCoerceStep x = x := by
          unfold qbCoerceStep
          rw [hg]
        rw [hco, listFieldStep_of_get_other
          (by intro items hc; rw [hg] at hc
              exact Jv.noConfusion (Option.some.inj hc))]
        exact ⟨_, hg, fun l hc => Jv.noConfusion hc,
          fun f2 hc => Jv.noConfusion hc, fun hc => Jv.noConfusion hc⟩

/-- A second coerce-plus-normalize pass on `quiz_blueprint` is the
identity on values of the shape produced by the first. -/
theorem qbPass2 {r : List (String × Jv)}
    (hsh : (∃ l, objGet r "quiz_blueprint" = some (.arr (normalizeQb l))) ∨
      (∃ w, objGet r "quiz_blueprint" = some w ∧
        (∀ l, w ≠ Jv.arr l) ∧ (∀ f2, w ≠ Jv.obj f2) ∧ w ≠ Jv.null)) :
    listFieldStep "quiz_blueprint" normalizeQb (qbCoerceStep r) = r := by
  rcases hsh with ⟨l, hl⟩ | ⟨w, hw, hna, hno, hnn⟩
  · have hco : qbCoerceStep r = r := by
      unfold qbCoerceStep
      rw [hl]
    rw [hco, listFieldStep_of_get_arr hl, normalizeQb_idem,
      objSet_objGet_self _ _ _ hl]
  · have hco : qbCoerceStep r = r := by
      unfold qbCoerceStep
      rw [hw]
      cases w <;> first
        | rfl
        | exact absurd rfl (hna _)
        | exact absurd rfl (hno _)
        | exact absurd rfl hnn
    rw [hco, listFieldStep_of_get_other
      (by intro items hc; rw [hw] at hc
          exact hna items (Option.some.inj hc))]

/-- `PackPlan` repair is idempotent. -/
theorem repairPackPlanObj_idem (o : List (String × Jv)) :
    repairPackPlanObj (repairPackPlanObj o) = repairPackPlanObj o := by
  set o1 := hoistInner o "teaching_pack"
    ["learning_objectives", "slide_outline", "quiz_blueprint",
     "estimated_time", "differentiation_strategy", "group_id"] with ho1
  set o2 := objSetD o1 "group_id" (.s "") with ho2
  set o3 := objSetD o2 "learning_objectives" (.arr []) with ho3
  set o4 := estimatedTimeStep o3 with ho4
  set o5 := objSetD o4 "differentiation_strategy" (.s "") with ho5
  set o6 := diffStrategyStep o5 with ho6
  set o7 := listFieldStep "slide_outline" (normalizeOutline 1) o6 with ho7
  set o8 := objSetD o7 "slide_outline" (.arr []) with ho8
  set o9 := qbCoerceStep o8 with ho9
  have hR : repairPackPlanObj o =
      listFieldStep "quiz_blueprint" normalizeQb o9 := rfl
  have hgid : objHasKey (repairPackPlanObj o) "group_id" = true := by
    unfold objHasKey
    rw [hR, objGet_listFieldStep_ne (by decide), ho9,
      objGet_qbCoerceStep_ne (by decide), ho8, objGet_objSetD,
      if_neg (by decide), ho7, objGet_listFieldStep_ne (by decide), ho6,
      objGet_diffStrategyStep_ne (by decide), ho5, objGet_objSetD,
      if_neg (by decide), ho4, objGet_estimatedTimeStep_ne (by decide),
      ho3, objGet_objSetD, if_neg (by decide), ho2, objGet_objSetD,
      if_pos rfl]
    rfl
  have hlo : objHasKey (repairPackPlanObj o) "learning_objectives"
      = true := by
    unfold objHasKey
    rw [hR, objGet_listFieldStep_ne (by decide), ho9,
      objGet_qbCoerceStep_ne (by decide), ho8, objGet_objSetD,
      if_neg (by decide), ho7, objGet_listFieldStep_ne (by decide), ho6,
      objGet_diffStrategyStep_ne (by decide), ho5, objGet_objSetD,
      if_neg (by decide), ho4, objGet_estimatedTimeStep_ne (by decide),
      ho3, objGet_objSetD, if_pos rfl]
    rfl
  have hint : pyIsInt (pyGet (repairPackPlanObj o) "estimated_time")
      = true := by
    have hfr : pyGet (repairPackPlanObj o) "estimated_time" =
        pyGet o4 "estimated_time" := by
      unfold pyGet
      rw [hR, objGet_listFieldStep_ne (by decide), ho9,
        objGet_qbCoerceStep_ne (by decide), ho8, objGet_objSetD,
        if_neg (by decide), ho7, objGet_listFieldStep_ne (by decide), ho6,
        objGet_diffStrategyStep_ne (by decide), ho5, objGet_objSetD,
        if_neg (by decide)]
    rw [hfr, ho4]
    exact pyIsInt_estimatedTimeStep _
  have hstr : pyIsStr (pyGet (repairPackPlanObj o)
      "differentiation_strategy") = true := by
    have hfr : pyGet (repairPackPlanObj o) "differentiation_strategy" =
        pyGet o6 "differentiation_strategy" := by
      unfold pyGet
      rw [hR, objGet_listFieldStep_ne (by decide), ho9,
        objGet_qbCoerceStep_ne (by decide), ho8, objGet_objSetD,
        if_neg (by decide), ho7, objGet_listFieldStep_ne (by decide)]
    rw [hfr, ho6]
    exact pyIsStr_diffStrategyStep _
  have hds : objHasKey (repairPackPlanObj o) "differentiation_strategy"
      = true :=
    hasKey_of_not_isNull _ _ (pyIsStr_not_null _ hstr)
  have hshSO : (∃ l, objGet (repairPackPlanObj o) "slide_outline" =
        some (.arr (normalizeOutline 1 l))) ∨
      (∃ w, objGet (repairPackPlanObj o) "slide_outline" = some w ∧
        ∀ items, w ≠ Jv.arr items) := by
    have hfr : objGet (repairPackPlanObj o) "slide_outline" =
        objGet o8 "slide_outline" := by
      rw [hR, objGet_listFieldStep_ne (by decide), ho9,
        objGet_qbCoerceStep_ne (by decide)]
    rw [hfr, ho8, ho7]
    exact listThenD_shape o6 "slide_outline" (normalizeOutline 1) rfl
  have hshQB : (∃ l, objGet (repairPackPlanObj o) "quiz_blueprint" =
        some (.arr (normalizeQb l))) ∨
      (∃ w, objGet (repairPackPlanObj o) "quiz_blueprint" = some w ∧
        (∀ l, w ≠ Jv.arr l) ∧ (∀ f2, w ≠ Jv.obj f2) ∧ w ≠ Jv.null) := by
    have h9 : repairPackPlanObj o =
        listFieldStep "quiz_blueprint" normalizeQb (qbCoerceStep o8) := by
      rw [hR, ho9]
    rw [h9]
    exact qbcoerce_shape o8
  have F1 : ∀ flds, objGet (repairPackPlanObj o) "teaching_pack" ≠
      some (.obj flds) := by
    have hfr : objGet (repairPackPlanObj o) "teaching_pack" =
        objGet o1 "teaching_pack" := by
      rw [hR, objGet_listFieldStep_ne (by decide), ho9,
        objGet_qbCoerceStep_ne (by decide), ho8, objGet_objSetD,
        if_neg (by decide), ho7, objGet_listFieldStep_ne (by decide), ho6,
        objGet_diffStrategyStep_ne (by decide), ho5, objGet_objSetD,
        if_neg (by decide), ho4, objGet_estimatedTimeStep_ne (by decide),
        ho3, objGet_objSetD, if_neg (by decide), ho2, objGet_objSetD,
        if_neg (by decide)]
    intro flds hc
    rw [hfr, ho1] at hc
    exact objGet_hoistInner_outer (by decide) flds hc
  conv_lhs => rw [repairPackPlanObj]
  rw [hoistInner_of_not_obj F1]
  rw [objSetD_of_hasKey _ _ _ hgid]
  rw [objSetD_of_hasKey _ _ _ hlo]
  rw [estimatedTimeStep_id_of_int hint]
  rw [objSetD_of_hasKey _ _ _ hds]
  rw [diffStrategyStep_id_of_str hstr]
  rw [listThenD_pass2 (fun l => normalizeOutline_idem 1 1 l) hshSO]
  exact qbPass2 hshQB


/-- C9: schema repair is idempotent — for every target type and every raw
loaded value, a successful repair re-applied to its own output returns
that output unchanged (`repair(repair(x)) == repair(x)`); in particular an
already-valid repaired record passes through untouched. -/
theorem repair_idempotent (t : TargetType) (v v2 : Jv)
    (h : repairData t v = .ok v2) : repairData t v2 = .ok v2 := by
  cases v with
  | obj flds =>
      cases t with
      | lessonSummary =>
          have hv2 : v2 = .obj (repairLessonSummaryObj flds) :=
            (Except.ok.inj h).symm
          subst hv2
          simp only [repairData]
          rw [repairLessonSummaryObj_idem]
      | skillSet =>
          have hv2 : v2 = .obj (repairSkillSetObj flds) :=
            (Except.ok.inj h).symm
          subst hv2
          simp only [repairData]
          rw [repairSkillSetObj_idem]
      | groupProfile =>
          have hv2 : v2 = .obj (repairGroupProfileObj flds) :=
            (Except.ok.inj h).symm
          subst hv2
          simp only [repairData]
          rw [repairGroupProfileObj_idem]
      | packPlan =>
          have hv2 : v2 = .obj (repairPackPlanObj flds) :=
            (Except.ok.inj h).symm
          subst hv2
          simp only [repairData]
          rw [repairPackPlanObj_idem]
      | slides =>
          have hv2 : v2 = .obj (repairSlidesObj flds) :=
            (Except.ok.inj h).symm
          subst hv2
          simp only [repairData]
          rw [repairSlidesObj_idem]
      | diagnostic =>
          simp only [repairData] at h
          cases hd : repairDiagnosticObj flds with
          | error e => rw [hd] at h; exact Except.noConfusion h
          | ok r =>
              rw [hd] at h
              have h2 : Except.ok (Jv.obj r) =
                  (Except.ok v2 : Except String Jv) := h
              obtain rfl := Except.ok.inj h2
              show (repairDiagnosticObj r).map Jv.obj =
                Except.ok (Jv.obj r)
              rw [repairDiagnosticObj_idem flds r hd]
              rfl
      | quiz =>
          simp only [repairData] at h
          cases hd : repairQuizObj flds with
          | error e => rw [hd] at h; exact Except.noConfusion h
          | ok r =>
              rw [hd] at h
              have h2 : Except.ok (Jv.obj r) =
                  (Except.ok v2 : Except String Jv) := h
              obtain rfl := Except.ok.inj h2
              show (repairQuizObj r).map Jv.obj = Except.ok (Jv.obj r)
              rw [repairQuizObj_idem flds r hd]
              rfl
      | other =>
          have hv2 : v2 = .obj flds := (Except.ok.inj h).symm
          subst hv2
          rfl
  | null =>
      have h2 : Except.ok _ = (Except.ok v2 : Except String Jv) := h
      obtain rfl := Except.ok.inj h2
      rfl
  | b b0 =>
      have h2 : Except.ok _ = (Except.ok v2 : Except String Jv) := h
      obtain rfl := Except.ok.inj h2
      rfl
  | i n0 =>
      have h2 : Except.ok _ = (Except.ok v2 : Except String Jv) := h
      obtain rfl := Except.ok.inj h2
      rfl
  | f q0 =>
      have h2 : Except.ok _ = (Except.ok v2 : Except String Jv) := h
      obtain rfl := Except.ok.inj h2
      rfl
  | s w0 =>
      have h2 : Except.ok _ = (Except.ok v2 : Except String Jv) := h
      obtain rfl := Except.ok.inj h2
      rfl
  | arr l0 =>
      have h2 : Except.ok _ = (Except.ok v2 : Except String Jv) := h
      obtain rfl := Except.ok.inj h2
      rfl

/-- Witness for C9: a concrete `LessonSummary` repair output re-repairs to
itself. -/
theorem repair_idempotent_witness :
    repairData TargetType.lessonSummary
        (.obj [("grade", .s ""), ("lesson_content", .s "")]) =
      .ok (.obj [("grade", .s ""), ("lesson_content", .s "")]) :=
  repair_idempotent TargetType.lessonSummary (.obj []) _ rfl

end TPG
